import Mathlib

/-!
Shallow embedding of the monopoly-gym game engine
(`src/engine/game.py`, `src/engine/fields.py`, `src/engine/cards.py`,
`src/engine/agent.py`, `src/engine/agent_funcs.py`, `src/model/masking.py`)
together with theorems settling the behavioural claims about it.

Modelling conventions:
* Python objects become records; mutation becomes explicit state passing.
* Player money is modelled as `ℚ` (Python floats; every operation the
  theorems touch is exact in binary floating point for the board's
  integer-valued prices, so `ℚ` is a faithful model of those runs).
* Prices, rents and build levels are `ℕ`; Python `//` is `Nat` division.
* `np.random` draws are modelled by explicit random tapes threaded through
  the state (`rolls` for dice-pair sums, `shuffles` for deck shuffles).
* Recursion between card effects, field reactions and deck draws
  (`Card.__call__` / `Field.react` / `CardsField.react`) is modelled by a
  single fuel-indexed interpreter `run`; fuel only cuts executions that
  recurse deeper than the given bound, so any theorem at a concrete input
  uses a fuel large enough to reproduce the Python execution exactly.
-/

namespace MonopolyGym

/-- Tag for the `Field` class hierarchy of `src/engine/fields.py`
    (`field_type` codes of `Board.field_factor`). -/
inductive FieldKind where
  | basic
  | start
  | property
  | utility
  | train
  | income_tax
  | luxury_tax
  | go_to_jail
  | visit_jail
  | chance
  | community_chest
  deriving DecidableEq, Repr

/-- One board field.  The record merges the attributes of the Python field
    classes; attributes that only exist on some classes (`owner`, `price`,
    `is_mortgage` on `Purchasable`; `color`, `build_level`, `house_cost`,
    `fees` on `Property`) are meaningful only for the corresponding
    `kind`, mirroring Python's `hasattr` checks (see `hasColor` below). -/
structure Field where
  id : ℕ
  kind : FieldKind
  owner : Option ℕ := none
  price : ℕ := 0
  is_mortgage : Bool := false
  color : String := ""
  build_level : ℕ := 0
  house_cost : ℕ := 0
  fees : List ℕ := []
  deriving DecidableEq, Repr

/-- `hasattr(field, 'color')` / `hasattr(field, 'build_level')`: only the
    `Property` subclass carries these attributes. -/
def Field.hasColor (f : Field) : Bool := f.kind = FieldKind.property

/-- `Property.hotel_cost = 4 * house_cost + house_cost`. -/
def Field.hotel_cost (f : Field) : ℕ := 4 * f.house_cost + f.house_cost

/-- The card classes of `src/engine/cards.py`, one constructor per class.
    `getOutOfJailFree` is the base class `GetOutOfJailFree` (whose
    `__call__` is inherited from `Card` and does nothing); its subclasses
    `CommunityJailFree` and `ChanceJailFreeCard` are separate constructors. -/
inductive Card where
  | advanceToBoardwalk
  | advanceToGo
  | advanceToIllinoisAvenue
  | advanceToCharlesPlace
  | advanceToNearestRailroad
  | advanceToNearestUtility
  | bankDividend
  | getOutOfJailFree
  | communityJailFree
  | chanceJailFreeCard
  | goBack3Spaces
  | goToJailCard
  | repairsOfProperties
  | speedingFines
  | goToReadingRailroad
  | chairmanElection
  | loanMatures
  | bankError
  | docktorFee
  | stockSale
  | holidayFundMatures
  | birthday
  | incomeTaxRefund
  | lifeInsuranceMatures
  | hospitalFees
  | schoolFees
  | consultancyFee
  | streetRepair
  | beautyPrize
  | inheritanceCard
  deriving DecidableEq, Repr

/-- `isinstance(card, GetOutOfJailFree)`: true for the base class and for
    both of its subclasses. -/
def Card.isJailFree : Card → Bool
  | .getOutOfJailFree => true
  | .communityJailFree => true
  | .chanceJailFreeCard => true
  | _ => false

/-- The chance stack literal of `get_chance_cards` (`src/engine/cards.py`).
    Note that the jail-free entry is the base class `GetOutOfJailFree`,
    not the `ChanceJailFreeCard` subclass. -/
def chanceCards : List Card :=
  [ .advanceToBoardwalk, .advanceToGo, .advanceToIllinoisAvenue,
    .advanceToCharlesPlace, .advanceToNearestRailroad,
    .advanceToNearestUtility, .bankDividend, .getOutOfJailFree,
    .goBack3Spaces, .goToJailCard, .repairsOfProperties, .speedingFines,
    .goToReadingRailroad, .chairmanElection, .loanMatures ]

/-- The community chest stack literal of `get_community_chest_cards`;
    again the jail-free entry is the base class `GetOutOfJailFree`. -/
def communityChestCards : List Card :=
  [ .advanceToGo, .bankError, .docktorFee, .stockSale, .getOutOfJailFree,
    .goToJailCard, .holidayFundMatures, .incomeTaxRefund, .birthday,
    .lifeInsuranceMatures, .hospitalFees, .schoolFees, .consultancyFee,
    .streetRepair, .beautyPrize, .inheritanceCard ]

/-- The class-level state of a `CardsField` subclass: `cards_stack`,
    `stack_pos` and the scarce-card flag `jail_card_out`. -/
structure DeckState where
  cards_stack : List Card
  stack_pos : ℕ := 0
  jail_card_out : Bool := false
  deriving Repr

/-- One trade offer dictionary (`offer_scheme` in `FixedPolicyAgent.make_offers`).
    Every construction site in the source fills both money entries with a
    number (`0` by default), so they are modelled as plain `ℚ` and the
    always-true `!= None` guards of `exec_offer` as unconditional. -/
structure Offer where
  money_offered : ℚ := 0
  money_requested : ℚ := 0
  property_offered : Option ℕ := none
  property_requested : Option ℕ := none
  player_from : ℕ := 0
  player_to : ℕ := 0
  deriving DecidableEq, Repr

/-- Mutable per-player state of class `Player` (`src/engine/game.py`). -/
structure Player where
  id : ℕ := 0
  pos : ℕ := 0
  properties : List ℕ := []
  jail_turns_remain : ℕ := 0
  is_bankrupt : Bool := false
  money : ℚ := 1500
  community_jail_free_card : Bool := false
  chance_jail_free_card : Bool := false
  pending_offer : Option Offer := none
  deriving DecidableEq, Repr

/-- The state a single `GameRound` sees: its board fields and players, the
    two card decks (which in the source are *class* attributes of
    `ChanceField` / `CommunityChest`, see `SharedWorld` below for the
    consequences), the board's cached `prison_id`, and the random tapes. -/
structure GameState where
  fields : List Field
  players : List Player
  chanceDeck : DeckState
  communityDeck : DeckState
  prison_id : ℕ := 0
  rolls : List ℕ := []
  shuffles : List (List Card → List Card) := []

/-- Default player used to totalise out-of-range tuple indexing
    (unreachable in source runs, which index with valid ids). -/
def dfltPlayer : Player := {}

/-- Default field for out-of-range lookups (same caveat as `dfltPlayer`). -/
def dfltField : Field := { id := 0, kind := .basic }

/-- `gamemaster.get_player(player_id)` — tuple indexing. -/
def getPlayer (st : GameState) (pid : ℕ) : Player :=
  (st.players[pid]?).getD dfltPlayer

/-- `gamemaster.get_field(pos)` — tuple indexing. -/
def getField (st : GameState) (fid : ℕ) : Field :=
  (st.fields[fid]?).getD dfltField

/-- In-place mutation of one player object. -/
def updPlayer (st : GameState) (pid : ℕ) (g : Player → Player) : GameState :=
  { st with players := st.players.set pid (g (getPlayer st pid)) }

/-- In-place mutation of one field object. -/
def updField (st : GameState) (fid : ℕ) (g : Field → Field) : GameState :=
  { st with fields := st.fields.set fid (g (getField st fid)) }

/-- `player.money += delta` (or `-=` for negative delta). -/
def updMoney (st : GameState) (pid : ℕ) (delta : ℚ) : GameState :=
  updPlayer st pid (fun p => { p with money := p.money + delta })

/-- `player.pos = v`. -/
def setPos (st : GameState) (pid : ℕ) (v : ℕ) : GameState :=
  updPlayer st pid (fun p => { p with pos := v })

/-- Pop the next dice-pair sum from the random tape
    (`np.random.randint(1, 7, (2,)).sum()`). -/
def popRoll (st : GameState) : ℕ × GameState :=
  (st.rolls.headD 0, { st with rolls := st.rolls.tail })

/-- Pop the next shuffle permutation from the random tape
    (`np.random.shuffle`). -/
def popShuffle (st : GameState) : (List Card → List Card) × GameState :=
  (st.shuffles.headD id, { st with shuffles := st.shuffles.tail })

/-- Read the class-level deck of `ChanceField` (`ch = true`) or
    `CommunityChest` (`ch = false`). -/
def getDeck (ch : Bool) (st : GameState) : DeckState :=
  if ch then st.chanceDeck else st.communityDeck

/-- Write back the class-level deck. -/
def setDeck (ch : Bool) (st : GameState) (d : DeckState) : GameState :=
  if ch then { st with chanceDeck := d } else { st with communityDeck := d }

/-- `Board.get_properties()`: every `Purchasable` field in board order. -/
def getProperties (st : GameState) : List Field :=
  st.fields.filter (fun f =>
    f.kind = FieldKind.property ∨ f.kind = FieldKind.train ∨
      f.kind = FieldKind.utility)

/-- `Board.get_real_estates()`: every `Property` field in board order. -/
def getRealEstates (st : GameState) : List Field :=
  st.fields.filter (fun f => f.kind = FieldKind.property)

/-- `getattr(field, 'color', '')` used by `Board.get_property_group_ids`. -/
def colorAttr (f : Field) : String :=
  if f.hasColor then f.color else ""

/-- `Board.get_property_group_ids(property_id)`: `none` when the field has
    no `color` attribute, otherwise the ids of all fields whose `color`
    equals the field's color. -/
def getPropertyGroupIds (st : GameState) (property_id : ℕ) : Option (List ℕ) :=
  let check_property := (st.fields[property_id]?).getD dfltField
  if ¬ check_property.hasColor then none
  else
    some ((st.fields.filter (fun f => colorAttr f = check_property.color)).map (·.id))

/-- `Purchasable.set_owner(val)`: clearing the owner also clears the
    mortgage flag. -/
def fieldSetOwner (f : Field) (val : Option ℕ) : Field :=
  match val with
  | none => { f with owner := none, is_mortgage := false }
  | some v => { f with owner := some v }

/-- `Player.add_property`: append to the player's list and set the field's
    owner (keeping invariant I1 in one call). -/
def add_property (st : GameState) (pid property_id : ℕ) : GameState :=
  let st := updPlayer st pid (fun p => { p with properties := p.properties ++ [property_id] })
  updField st property_id (fun f => fieldSetOwner f (some pid))

/-- `Player.remove_property`: remove the first occurrence from the list
    (Python `list.remove`) and clear the field's owner. -/
def remove_property (st : GameState) (pid property_id : ℕ) : GameState :=
  let st := updPlayer st pid (fun p => { p with properties := p.properties.erase property_id })
  updField st property_id (fun f => fieldSetOwner f none)

/-- `Player.buy_property`. -/
def buy_property (st : GameState) (pid property_id : ℕ) : GameState :=
  let st := add_property st pid property_id
  updMoney st pid (-(getField st property_id).price)

/-- `Player.use_jail_free_card`: consume a held jail-free card, releasing
    the class-level `jail_card_out` flag of the corresponding deck. -/
def use_jail_free_card (st : GameState) (pid : ℕ) : GameState :=
  let p := getPlayer st pid
  if p.chance_jail_free_card then
    let st := updPlayer st pid (fun q =>
      { q with chance_jail_free_card := false, jail_turns_remain := 0 })
    { st with chanceDeck := { st.chanceDeck with jail_card_out := false } }
  else if p.community_jail_free_card then
    let st := updPlayer st pid (fun q =>
      { q with community_jail_free_card := false, jail_turns_remain := 0 })
    { st with communityDeck := { st.communityDeck with jail_card_out := false } }
  else st

/-- `Player.pay_jail_fine`. -/
def pay_jail_fine (st : GameState) (pid : ℕ) : GameState :=
  updPlayer st pid (fun p => { p with jail_turns_remain := 0, money := p.money - 50 })

/-- `GameRound.put_in_prison`. -/
def put_in_prison (st : GameState) (pid : ℕ) : GameState :=
  updPlayer st pid (fun p => { p with pos := st.prison_id, jail_turns_remain := 3 })

/-- `TrainStation.calc_fee`'s count of stations with the same owner,
    followed by the `TrainStation.fees` table lookup
    (`{1: 25, 2: 50, 3: 100, 4: 200}`; any other count would raise a
    `KeyError` in Python and is unreachable on the 4-station board). -/
def trainFeeTable : ℕ → ℕ
  | 1 => 25
  | 2 => 50
  | 3 => 100
  | 4 => 200
  | _ => 0

/-- The station count of `TrainStation.calc_fee`. -/
def countTrainsOwnedBy (st : GameState) (owner : Option ℕ) : ℕ :=
  (st.fields.filter (fun f => f.kind = FieldKind.train ∧ f.owner = owner)).length

/-- `UtilityField.utils_common_owner`: compares the owners of the first
    two utilities on the board (Python indexes `utils[0]`/`utils[1]`;
    fewer than two utilities would raise and is unreachable). -/
def utilsCommonOwner (st : GameState) : Bool :=
  match st.fields.filter (fun f => f.kind = FieldKind.utility) with
  | u0 :: u1 :: _ => u0.owner = u1.owner
  | _ => false

/-- The fee amount each `fee_` implementation computes for field `fid`
    (0 for a mortgaged `Property`, rent-table entry otherwise; station
    table for `TrainStation`; `roll_sum * multiplier` for `UtilityField`,
    where `roll_sum` is the forced value or the head of the dice tape). -/
def feeAmount (st : GameState) (fid : ℕ) (force_roll_sum : Option ℕ) : ℕ :=
  let f := getField st fid
  match f.kind with
  | .property => if f.is_mortgage then 0 else f.fees.getD f.build_level 0
  | .train => trainFeeTable (countTrainsOwnedBy st f.owner)
  | .utility =>
      let multipier := if utilsCommonOwner st then 10 else 4
      let roll_sum := match force_roll_sum with
        | some r => r
        | none => (popRoll st).1
      roll_sum * multipier
  | _ => 0

/-- The `fee_` implementations of `Property` / `TrainStation` /
    `UtilityField`: move the fee from the landing player to the owner
    (a mortgaged `Property` returns before transferring; a fresh utility
    roll consumes the dice tape). -/
def feeTransfer (st : GameState) (fid pid : ℕ) (force_roll_sum : Option ℕ) : GameState :=
  let f := getField st fid
  match f.owner with
  | none => st
  | some o =>
    if f.kind = FieldKind.property ∧ f.is_mortgage then st
    else
      let fee : ℚ := feeAmount st fid force_roll_sum
      let st := if f.kind = FieldKind.utility ∧ force_roll_sum = none
        then (popRoll st).2 else st
      let st := updMoney st pid (-fee)
      updMoney st o fee

/-- `Purchasable.react`: charge the fee when the field is owned by a
    different player, except that a player with `jail_turns_remain > 0`
    is exempted (the early `return`). -/
def purchasableReact (st : GameState) (fid pid : ℕ) (force_roll_sum : Option ℕ) :
    GameState :=
  let f := getField st fid
  match f.owner with
  | none => st
  | some o =>
    if pid = o then st
    else if (getPlayer st pid).jail_turns_remain ≠ 0 then st
    else feeTransfer st fid pid force_roll_sum

/-- `GoBack3Spaces.__call__`'s destination:
    `curr_pos - 3 if (curr_pos - 3) >= 0 else 40 - abs(curr_pos - 3)`
    (for `pos < 3` this is `40 - (3 - pos)`). -/
def goBack3 (pos : ℕ) : ℕ :=
  if 3 ≤ pos then pos - 3 else 40 - (3 - pos)

/-- `get_nearest_field` of `src/engine/cards.py`: among fields of the given
    class, the first one past the current position, wrapping to the first
    of them when the position is beyond all of them (`np.argmax` of an
    all-false boolean array is 0, which also yields the first).
    `none` models the failed `assert` when no such field exists. -/
def get_nearest_field (fields : List Field) (current_pos : ℕ) (k : FieldKind) :
    Option Field :=
  let fit_fields := fields.filter (fun f => f.kind = k)
  match fit_fields with
  | [] => none
  | f0 :: _ =>
    let fit_fields_positions := fit_fields.map (·.id)
    if (fit_fields_positions.max?.getD 0) < current_pos then some f0
    else
      match fit_fields.findIdx? (fun f => current_pos < f.id) with
      | some i => fit_fields[i]?
      | none => some f0

/-- The cumulative fee of `RepairsOfProperties` (rate 25) and
    `StreetRepair` (rate 40): per owned `Property`,
    `build_level * rate`, plus 75 when the level is 5. -/
def repairsFee (st : GameState) (pid : ℕ) (rate : ℕ) : ℕ :=
  ((getPlayer st pid).properties.map (fun prop_id =>
    let prop := getField st prop_id
    if prop.kind = FieldKind.property then
      prop.build_level * rate + (if prop.build_level = 5 then 75 else 0)
    else 0)).sum

/-- The loops of `ChairmanElection` (`amt = 50`) and `Birthday`
    (`amt = 10`): every other in-game player pays `amt` to the drawing
    player. -/
def payEachOther (st : GameState) (pid : ℕ) (amt : ℚ) : GameState :=
  ((st.players.filter (fun p => !p.is_bankrupt)).map (·.id)).foldl
    (fun st plid =>
      if plid ≠ pid then updMoney (updMoney st pid amt) plid (-amt) else st)
    st

/-- The three mutually recursive entry points of the reaction machinery:
    applying a drawn card (`Card.__call__`), a field reaction
    (`Field.react` dispatch), and a deck draw (`CardsField.react`,
    `true` selects `ChanceField`, `false` selects `CommunityChest`). -/
inductive Job where
  | card (c : Card) (pid : ℕ)
  | field (fid : ℕ) (pid : ℕ)
  | deck (isChance : Bool) (pid : ℕ)

/-- Fuel-indexed interpreter for the `Card.__call__` / `Field.react` /
    `CardsField.react` recursion.  Each branch is the direct translation
    of the corresponding Python method; fuel 0 stops a run that nests
    deeper than the bound (never reached at the concrete inputs used by
    the theorems below, which pick a sufficient fuel). -/
def run : ℕ → Job → GameState → GameState
  | 0, _, st => st
  | fuel + 1, job, st =>
    match job with
    | .card c pid =>
      match c with
      | .advanceToBoardwalk =>
          run fuel (.field 39 pid) (setPos st pid 39)
      | .advanceToGo =>
          updMoney (setPos st pid 0) pid 200
      | .advanceToIllinoisAvenue =>
          run fuel (.field 24 pid) (setPos st pid 24)
      | .advanceToCharlesPlace =>
          run fuel (.field 11 pid) (setPos st pid 11)
      | .advanceToNearestRailroad =>
          match get_nearest_field st.fields (getPlayer st pid).pos FieldKind.train with
          | none => st
          | some nearest =>
            let st := setPos st pid nearest.id
            let st := purchasableReact st nearest.id pid none
            purchasableReact st nearest.id pid none
      | .advanceToNearestUtility =>
          match get_nearest_field st.fields (getPlayer st pid).pos FieldKind.utility with
          | none => st
          | some nearest =>
            let st := setPos st pid nearest.id
            let (roll_sum, st) :=
              if (getField st nearest.id).owner ≠ none then popRoll st else (0, st)
            purchasableReact st nearest.id pid (some (roll_sum * 10))
      | .bankDividend => updMoney st pid 50
      | .getOutOfJailFree => st
      | .communityJailFree =>
          updPlayer st pid (fun p => { p with community_jail_free_card := true })
      | .chanceJailFreeCard =>
          updPlayer st pid (fun p => { p with chance_jail_free_card := true })
      | .goBack3Spaces =>
          let next_pos := goBack3 (getPlayer st pid).pos
          run fuel (.field next_pos pid) (setPos st pid next_pos)
      | .goToJailCard => put_in_prison st pid
      | .repairsOfProperties => updMoney st pid (-(repairsFee st pid 25))
      | .speedingFines => updMoney st pid (-15)
      | .goToReadingRailroad =>
          let destin := getField st 5
          let st := if destin.id < (getPlayer st pid).pos then updMoney st pid 200 else st
          setPos st pid destin.id
      | .chairmanElection => payEachOther st pid 50
      | .loanMatures => updMoney st pid 150
      | .bankError => updMoney st pid 200
      | .docktorFee => updMoney st pid (-50)
      | .stockSale => updMoney st pid 50
      | .holidayFundMatures => updMoney st pid 100
      | .birthday => payEachOther st pid 10
      | .incomeTaxRefund => updMoney st pid 20
      | .lifeInsuranceMatures => updMoney st pid 100
      | .hospitalFees => updMoney st pid (-100)
      | .schoolFees => updMoney st pid (-50)
      | .consultancyFee => updMoney st pid 25
      | .streetRepair => updMoney st pid (-(repairsFee st pid 40))
      | .beautyPrize => updMoney st pid 10
      | .inheritanceCard => updMoney st pid 100
    | .field fid pid =>
      match (getField st fid).kind with
      | .basic | .start | .visit_jail => st
      | .property | .train | .utility => purchasableReact st fid pid none
      | .income_tax => updMoney st pid (-200)
      | .luxury_tax => updMoney st pid (-100)
      | .go_to_jail => put_in_prison st pid
      | .chance => run fuel (.deck true pid) st
      | .community_chest => run fuel (.deck false pid) st
    | .deck ch pid =>
      let d := getDeck ch st
      let (d, st) :=
        if d.stack_pos = d.cards_stack.length then
          let (shuf, st) := popShuffle st
          ({ d with stack_pos := 0, cards_stack := shuf d.cards_stack }, st)
        else (d, st)
      let st := setDeck ch st d
      if d.jail_card_out ∧ (d.cards_stack.getD d.stack_pos .getOutOfJailFree).isJailFree then
        -- skip this stack position: the jail card is held by some player
        run fuel (.deck ch pid) (setDeck ch st { d with stack_pos := d.stack_pos + 1 })
      else
        let card := d.cards_stack.getD d.stack_pos .getOutOfJailFree
        let st := if card.isJailFree then setDeck ch st { d with jail_card_out := true } else st
        let st := run fuel (.card card pid) st
        let d2 := getDeck ch st
        setDeck ch st { d2 with stack_pos := d2.stack_pos + 1 }

/-- The position `FixedPolicyAgent.make_roll` assigns before reacting:
    `(player.pos + roll_results.sum()) % len(board.fields)` (with the
    200 bonus when the un-wrapped position passed the start field). -/
def makeRollPos (st : GameState) (pid : ℕ) (roll_sum : ℕ) : ℕ :=
  ((getPlayer st pid).pos + roll_sum) % st.fields.length

/-- `FixedPolicyAgent.make_roll`: pop the dice sum from the tape, advance
    the player (wrapping, with the passing-go bonus), then fire the landed
    field's reaction. -/
def make_roll (st : GameState) (pid : ℕ) (fuel : ℕ) : GameState :=
  let (roll_sum, st) := popRoll st
  let result_pos := (getPlayer st pid).pos + roll_sum
  let fields_n := st.fields.length
  let st := if fields_n ≤ result_pos then updMoney st pid 200 else st
  let st := setPos st pid (result_pos % fields_n)
  run fuel (.field (result_pos % fields_n) pid) st

/-- The conflict test of `GameRound.exec_offer`'s final scan:
    `req in traded_properties or offe in traded_properties`
    (a `None` entry never matches the traded ids). -/
def offerRefsTraded (off : Offer) (traded : List ℕ) : Bool :=
  (match off.property_requested with
   | some req => decide (req ∈ traded)
   | none => false) ||
  (match off.property_offered with
   | some offe => decide (offe ∈ traded)
   | none => false)

/-- The body of `exec_offer`'s final loop over `self.players`: clear the
    player's pending offer when it references a traded property. -/
def clearConflicts (traded_properties : List ℕ) (player : Player) : Player :=
  match player.pending_offer with
  | some off =>
      if offerRefsTraded off traded_properties then
        { player with pending_offer := none }
      else player
  | none => player

/-- `GameRound.exec_offer`: move the requested property target → offerer,
    the offered property offerer → target, apply both cash deltas, then
    clear every pending offer that references a traded property. -/
def exec_offer (st : GameState) (offer : Offer) : GameState :=
  let traded_properties :=
    offer.property_requested.toList ++ offer.property_offered.toList
  let st :=
    match offer.property_requested with
    | none => st
    | some r => add_property (remove_property st offer.player_to r) offer.player_from r
  let st :=
    match offer.property_offered with
    | none => st
    | some o => add_property (remove_property st offer.player_from o) offer.player_to o
  let st := updMoney (updMoney st offer.player_from offer.money_requested)
    offer.player_to (-offer.money_requested)
  let st := updMoney (updMoney st offer.player_from (-offer.money_offered))
    offer.player_to offer.money_offered
  { st with players := st.players.map (clearConflicts traded_properties) }

/-- `monopoly_gain` of `src/engine/agent_funcs.py`. -/
def monopoly_gain (st : GameState) (property_id : ℕ) (player_properties : List ℕ) :
    Bool :=
  match getPropertyGroupIds st property_id with
  | none => false
  | some color_group =>
      color_group.all (fun g => g ∈ property_id :: player_properties)

/-- The candidate accumulation loop of `identify_mortgages`: owned
    properties that are not mortgaged and (for real estates) not built on,
    paired with `price // 2`. -/
def mortgageCandidates (st : GameState) (pid : ℕ) : List (ℕ × ℕ) :=
  (getPlayer st pid).properties.filterMap (fun property_id =>
    let property := getField st property_id
    if property.is_mortgage then none
    else if property.hasColor ∧ 0 < property.build_level then none
    else some (property.id, property.price / 2))

/-- Stable insertion into a list sorted ascending by the cash component:
    the new element goes after every element with a smaller-or-equal key. -/
def sortedInsert (x : ℕ × ℕ) : List (ℕ × ℕ) → List (ℕ × ℕ)
  | [] => [x]
  | y :: ys => if y.2 ≤ x.2 then y :: sortedInsert x ys else x :: y :: ys

/-- Python's `sorted(..., key=lambda t: t[1])`: a stable ascending sort by
    the cash component (stable sorts agree extensionally, so insertion
    sort is the same function as CPython's timsort here). -/
def pySorted (l : List (ℕ × ℕ)) : List (ℕ × ℕ) :=
  l.foldl (fun acc x => sortedInsert x acc) []

/-- `np.cumsum`. -/
def cumsum : List ℕ → List ℕ
  | [] => []
  | a :: as => a :: (cumsum as).map (a + ·)

/-- `np.argmax` over a boolean array: index of the first `true`
    (0 when every entry is `false`). -/
def firstTrue : List Bool → ℕ
  | [] => 0
  | b :: bs => if b then 0 else firstTrue bs + 1

/-- `identify_mortgages(player, money_needed)`: candidates sorted
    ascending by raised cash; the slice runs up to (and including) the
    first position whose cumulative raised cash covers the need, or the
    whole list when even the total is insufficient. -/
def identify_mortgages (st : GameState) (pid : ℕ) (money_needed : ℚ) :
    List ℕ × ℕ :=
  let to_mortage := mortgageCandidates st pid
  let sorted := pySorted to_mortage
  let mortages_cash := sorted.map (·.2)
  let cash_against_need := (cumsum mortages_cash).map (fun s : ℕ => decide (money_needed ≤ (s : ℚ)))
  let k := if cash_against_need.any id
    then firstTrue cash_against_need + 1
    else mortages_cash.length
  ((sorted.take k).map (·.1), (mortages_cash.take k).sum)

/-- `identify_properties_to_improve(player)`: owned real estates in a
    fully-owned color group whose level is the group minimum and below 5,
    paired with the next level.  Note the loop never looks at
    `is_mortgage`. -/
def identify_properties_to_improve (st : GameState) (pid : ℕ) : List (ℕ × ℕ) :=
  (getPlayer st pid).properties.filterMap (fun property_id =>
    let property := getField st property_id
    if ¬ property.hasColor then none
    else
      match getPropertyGroupIds st property_id with
      | none => none
      | some color_group =>
        -- cannot build when no monopoly upon color group
        if ¬ color_group.all (fun g => g ∈ (getPlayer st pid).properties) then none
        else
          let group_levels := color_group.map (fun p_id => (getField st p_id).build_level)
          -- houses could be build only "evenly" and up to 5 build level
          if group_levels.min? = some property.build_level ∧ property.build_level < 5
          then some (property_id, property.build_level + 1)
          else none)

/-- `FixedPolicyAgent.make_builds`: level up each identified property
    whose cost leaves more than 200 in cash.  The candidate list is
    computed once, up front, exactly as in the source. -/
def make_builds (st : GameState) (pid : ℕ) : GameState :=
  let improve_poss_ids := (identify_properties_to_improve st pid).map (·.1)
  improve_poss_ids.foldl (fun st prop_id =>
    let field := getField st prop_id
    let cost : ℚ := if field.build_level < 4 then field.house_cost else field.hotel_cost
    if 200 < (getPlayer st pid).money - cost then
      updField (updMoney st pid (-cost)) prop_id
        (fun f => { f with build_level := f.build_level + 1 })
    else st) st

/-- `Purchasable.mortgage`: credit `price / 2` (true division) to the
    owner and raise the flag — with no check of the build level. -/
def mortgageProperty (st : GameState) (fid : ℕ) : GameState :=
  let f := getField st fid
  let st := match f.owner with
    | some o => updMoney st o ((f.price : ℚ) / 2)
    | none => st
  updField st fid (fun g => { g with is_mortgage := true })

/-- The legality row of `ActionsMasking.apply_mortgage_masking`:
    owned by the player and not already mortgaged — the build level is
    not consulted. -/
def mortgageMask (st : GameState) (pid : ℕ) : List Bool :=
  (getProperties st).map (fun p =>
    decide (p.id ∈ (getPlayer st pid).properties) && !p.is_mortgage)

/-- The houses row of `ActionsMasking.apply_improve_buildings_masking`:
    `np.isin(real_estates_ids, houses_improv_ids)` where the improvement
    entries with next level below 5 feed the houses row. -/
def housesMask (st : GameState) (pid : ℕ) : List Bool :=
  let to_improve := identify_properties_to_improve st pid
  let houses_improv_ids : List ℕ := (to_improve.filter (fun a => a.2 < 5)).map (·.1)
  (getRealEstates st).map (fun p => decide (p.id ∈ houses_improv_ids))

/-- The hotels row of `ActionsMasking.apply_improve_buildings_masking`:
    improvement entries whose next level is exactly 5. -/
def hotelsMask (st : GameState) (pid : ℕ) : List Bool :=
  let to_improve := identify_properties_to_improve st pid
  let hotels_improv_ids : List ℕ := (to_improve.filter (fun a => a.2 = 5)).map (·.1)
  (getRealEstates st).map (fun p => decide (p.id ∈ hotels_improv_ids))

/-- `FixedPolicyAgent._get_offer_net_worth`. -/
def getOfferNetWorth (st : GameState) (offer : Offer) : ℚ :=
  let req_value : ℚ := match offer.property_requested with
    | some r => (getField st r).price
    | none => 0
  let off_value : ℚ := match offer.property_offered with
    | some o => (getField st o).price
    | none => 0
  let req_cash := offer.money_offered
  let off_cash := offer.money_requested
  (off_value + off_cash) - (req_value + req_cash)

/-- `FixedPolicyAgent._get_offer_type`: the type label of an offer,
    `none` for the `ValueError` raised when neither property is set. -/
def getOfferType (offer : Offer) : Option String :=
  match offer.property_requested, offer.property_offered with
  | none, some _ => some "sell_to_player"
  | some _, none => some "buy_from_player"
  | some _, some _ => some "exchange_offer"
  | none, none => none

/-- `FixedPolicyAgent.consider_offer`: evaluate the player's own pending
    offer (the argument is immediately shadowed by `player.pending_offer`
    in the source).  `none` models the exceptions: no pending offer,
    `ValueError` from `_get_offer_type`, or the `KeyError` that the
    misspelled `'echange_offer'` branch would raise on
    `offer['requested_property']` if it were ever entered. -/
def consider_offer (st : GameState) (pid : ℕ) : Option Bool :=
  let player := getPlayer st pid
  match player.pending_offer with
  | none => none
  | some offer =>
    match getOfferType offer with
    | none => none
    | some offer_type =>
      let net_worth := getOfferNetWorth st offer
      if offer_type = "sell_to_player" then
        let increase_monopolies :=
          monopoly_gain st (offer.property_offered.getD 0) player.properties
        if increase_monopolies ∧ -200 < net_worth then some true
        else if 0 < net_worth then some true
        else some false
      else if offer_type = "buy_from_player" then
        if 200 < net_worth then some true else some false
      else if offer_type = "echange_offer" then
        -- dead branch: `offer_type` is never the misspelled label, and its
        -- body would raise a KeyError on the missing 'requested_property'
        none
      else some false

/-- One step of the out-of-turn while loop of `GameRound.next_turn`:
    `moves t` abstracts the move code returned by
    `make_out_of_turn_moves` at iteration `t` (2 is the skip code).
    The fuel argument carries the remaining budget
    `oot_limit - out_of_turn_count`; `t` counts executed iterations and
    `skip` is `skip_turn_counter`. -/
def ootAux (moves : ℕ → ℕ) (n : ℕ) : ℕ → ℕ → ℕ → ℕ
  | 0, t, _ => t
  | fuel + 1, t, skip =>
    if skip < n then
      ootAux moves n fuel (t + 1) (if moves t = 2 then skip + 1 else 0)
    else t

/-- The number of iterations the out-of-turn loop executes for `n`
    in-game players whose move codes are given by `moves`
    (`while skip_turn_counter < len(players_in_game) and
    out_of_turn_count < 5 * len(players_in_game)`). -/
def ootLoopCount (moves : ℕ → ℕ) (n : ℕ) : ℕ :=
  ootAux moves n (5 * n) 0 0

/-- Two `GameRound` instances as they exist in one Python process: the
    decks are *class* attributes of `ChanceField` / `CommunityChest`
    (`stack_pos`, `jail_card_out`, `cards_stack` in
    `src/engine/fields.py`), hence a single copy shared by every game;
    only fields, players, `prison_id` and the random tapes are per
    instance. -/
structure SharedWorld where
  chanceDeck : DeckState
  communityDeck : DeckState
  game1 : GameState
  game2 : GameState

/-- The `GameState` a given `GameRound` observes: its own instance
    attributes combined with the class-level decks. -/
def SharedWorld.view (w : SharedWorld) (i : Bool) : GameState :=
  let g := if i then w.game1 else w.game2
  { g with chanceDeck := w.chanceDeck, communityDeck := w.communityDeck }

/-- Run a chance-deck draw (`ChanceField.react`) for player `pid` of game
    `i` and write the resulting class-level decks and instance state back. -/
def SharedWorld.drawChanceIn (w : SharedWorld) (i : Bool) (pid fuel : ℕ) :
    SharedWorld :=
  let st := run fuel (.deck true pid) (w.view i)
  { chanceDeck := st.chanceDeck
    communityDeck := st.communityDeck
    game1 := if i then st else w.game1
    game2 := if i then w.game2 else st }

/-- Run `Player.use_jail_free_card` for player `pid` of game `i`,
    writing back the class-level decks it touches. -/
def SharedWorld.useJailFreeIn (w : SharedWorld) (i : Bool) (pid : ℕ) :
    SharedWorld :=
  let st := use_jail_free_card (w.view i) pid
  { chanceDeck := st.chanceDeck
    communityDeck := st.communityDeck
    game1 := if i then st else w.game1
    game2 := if i then w.game2 else st }

/-- The chance-deck state game `i` observes (it reads the class
    attributes of `ChanceField`). -/
def SharedWorld.observedChance (w : SharedWorld) (i : Bool) : DeckState :=
  (w.view i).chanceDeck

/-- The specification's description of `identify_mortgages` (§4.6 / §8 of
    the spec), stated against the embedded code: the candidate pool is
    exactly the owned, unmortgaged, unbuilt properties valued at
    `price / 2`; the result is an ascending-by-cash prefix of the sorted
    candidates; its id list and total are returned; and the prefix is the
    first (hence minimal-length) one whose cumulative cash meets or
    exceeds the need, or the whole pool when that total is insufficient. -/
def MortgageSpec (st : GameState) (pid : ℕ) (need : ℚ) : Prop :=
  (∀ x c, (x, c) ∈ pySorted (mortgageCandidates st pid) ↔
    (∃ property_id ∈ (getPlayer st pid).properties,
      (getField st property_id).is_mortgage = false ∧
      ¬ ((getField st property_id).hasColor = true ∧
          0 < (getField st property_id).build_level) ∧
      x = (getField st property_id).id ∧
      c = (getField st property_id).price / 2)) ∧
  ((pySorted (mortgageCandidates st pid)).map (·.2)).Sorted (· ≤ ·) ∧
  (identify_mortgages st pid need).1 =
    ((pySorted (mortgageCandidates st pid)).take
      (identify_mortgages st pid need).1.length).map (·.1) ∧
  (identify_mortgages st pid need).2 =
    (((pySorted (mortgageCandidates st pid)).take
      (identify_mortgages st pid need).1.length).map (·.2)).sum ∧
  ((need ≤ ((((pySorted (mortgageCandidates st pid)).take
        (identify_mortgages st pid need).1.length).map (·.2)).sum : ℕ) ∧
      ∀ j < (identify_mortgages st pid need).1.length,
        ((((pySorted (mortgageCandidates st pid)).take j).map
          (·.2)).sum : ℚ) < need) ∨
    ((identify_mortgages st pid need).1.length =
        (pySorted (mortgageCandidates st pid)).length ∧
      ((((pySorted (mortgageCandidates st pid)).map
        (·.2)).sum : ℕ) : ℚ) < need))

/-- Claim C10's position invariant: every player's position lies in 0..39. -/
def PosOK (st : GameState) : Prop := ∀ p ∈ st.players, p.pos < 40

/-- Well-formedness of the constructed board: 40 fields, ids in 0..39
    (the csv ids are the positions), and the cached `prison_id` is the
    id of a board field. -/
def BoardOK (st : GameState) : Prop :=
  st.fields.length = 40 ∧ (∀ f ∈ st.fields, f.id < 40) ∧ st.prison_id < 40

/-! ### Concrete fixtures used by witnesses and counterexamples -/

/-- Field fixture helper. -/
def mkProp (i : ℕ) (own : Option ℕ) (pr : ℕ) (col : String) (lvl : ℕ := 0)
    (mort : Bool := false) : Field :=
  { id := i, kind := .property, owner := own, price := pr, is_mortgage := mort,
    color := col, build_level := lvl, house_cost := 50,
    fees := [2, 10, 30, 90, 160, 250] }

/-- A small game: player 0 owns the full brown group (field 2 mortgaged),
    a built-up red property and a train station; player 1 owns a utility. -/
def stFix : GameState :=
  { fields :=
      [ { id := 0, kind := .start },
        mkProp 1 (some 0) 60 "brown",
        mkProp 2 (some 0) 80 "brown" 0 true,
        mkProp 3 (some 0) 100 "red" 3,
        { id := 4, kind := .train, owner := some 0, price := 200 },
        { id := 5, kind := .utility, owner := some 1, price := 150 } ],
    players :=
      [ { id := 0, properties := [1, 2, 3, 4], money := 1000 },
        { id := 1, properties := [5], money := 800 } ],
    chanceDeck := { cards_stack := chanceCards },
    communityDeck := { cards_stack := communityChestCards } }

/-- Game with the chance cursor parked on the `GetOutOfJailFree` entry
    (index 7 of `get_chance_cards`) while the card is unclaimed. -/
def stDeck7 : GameState :=
  { fields := [],
    players := [ { id := 0 } ],
    chanceDeck := { cards_stack := chanceCards, stack_pos := 7 },
    communityDeck := { cards_stack := communityChestCards } }

/-- Player 0 is in jail (one turn remaining) and stands on field 1, a
    level-1 property owned by player 1 (rent 10). -/
def stJailed : GameState :=
  { fields := [ { id := 0, kind := .start }, mkProp 1 (some 1) 60 "brown" 1 ],
    players := [ { id := 0, jail_turns_remain := 1, money := 100 }, { id := 1, money := 500 } ],
    chanceDeck := { cards_stack := chanceCards },
    communityDeck := { cards_stack := communityChestCards } }

/-- Same board as `stJailed` but player 0 is free. -/
def stFree : GameState :=
  { stJailed with players := [ { id := 0, money := 100 }, { id := 1, money := 500 } ] }

/-- The exchange offer player 0 sends to player 1 in `stTrade`. -/
def exchangeOffer : Offer :=
  { property_offered := some 2, property_requested := some 3,
    money_offered := 25, money_requested := 10, player_from := 0, player_to := 1 }

/-- A game in which player 1 holds the pending `exchangeOffer` and
    player 2 holds a pending offer referencing traded property 3. -/
def stTrade : GameState :=
  { fields :=
      [ { id := 0, kind := .start },
        mkProp 1 none 60 "brown",
        mkProp 2 (some 0) 80 "brown" 0 true,
        { id := 3, kind := .train, owner := some 1, price := 200 } ],
    players :=
      [ { id := 0, properties := [2], money := 500 },
        { id := 1, properties := [3], money := 300,
          pending_offer := some exchangeOffer },
        { id := 2, money := 700,
          pending_offer := some { property_requested := some 3, money_offered := 5,
                                  player_from := 2, player_to := 2 } } ],
    chanceDeck := { cards_stack := chanceCards },
    communityDeck := { cards_stack := communityChestCards } }

/-- Two game instances sharing the class-level decks; the shared chance
    cursor is parked on `BankDividend` (index 6). -/
def sharedW0 : SharedWorld :=
  { chanceDeck := { cards_stack := chanceCards, stack_pos := 6 },
    communityDeck := { cards_stack := communityChestCards },
    game1 :=
      { fields := [], players := [ { id := 0 } ],
        chanceDeck := { cards_stack := chanceCards },
        communityDeck := { cards_stack := communityChestCards } },
    game2 :=
      { fields := [], players := [ { id := 0, chance_jail_free_card := true } ],
        chanceDeck := { cards_stack := chanceCards },
        communityDeck := { cards_stack := communityChestCards } } }

/-- A full 40-field board (minimal contents, jail at position 10) for the
    position-invariant witness. -/
def board40 : GameState :=
  { fields := (List.range 40).map (fun i =>
      if i = 10 then { id := i, kind := .visit_jail }
      else if i = 30 then { id := i, kind := .go_to_jail }
      else if i = 36 then { id := i, kind := .chance }
      else ({ id := i, kind := .basic } : Field)),
    players := [ { id := 0, pos := 36 }, { id := 1, pos := 2 } ],
    prison_id := 10,
    rolls := [7],
    chanceDeck := { cards_stack := chanceCards },
    communityDeck := { cards_stack := communityChestCards } }

/-! ### State-accessor lemmas -/

theorem getPlayer_updPlayer (st : GameState) (pid : ℕ) (g : Player → Player) (j : ℕ) :
    getPlayer (updPlayer st pid g) j =
      if pid = j ∧ pid < st.players.length then g (getPlayer st pid)
      else getPlayer st j := by
  unfold getPlayer updPlayer
  simp only [List.getElem?_set]
  by_cases h1 : pid = j
  · by_cases h2 : pid < st.players.length
    · subst h1; simp [h2, getPlayer, List.getElem?_eq_getElem h2]
    · subst h1; simp [h2, List.getElem?_eq_none (Nat.le_of_not_lt h2)]
  · simp [h1]

theorem getField_updField (st : GameState) (fid : ℕ) (g : Field → Field) (j : ℕ) :
    getField (updField st fid g) j =
      if fid = j ∧ fid < st.fields.length then g (getField st fid)
      else getField st j := by
  unfold getField updField
  simp only [List.getElem?_set]
  by_cases h1 : fid = j
  · by_cases h2 : fid < st.fields.length
    · subst h1; simp [h2, getField, List.getElem?_eq_getElem h2]
    · subst h1; simp [h2, List.getElem?_eq_none (Nat.le_of_not_lt h2)]
  · simp [h1]

theorem getField_updPlayer (st : GameState) (pid : ℕ) (g : Player → Player) (j : ℕ) :
    getField (updPlayer st pid g) j = getField st j := rfl

theorem getPlayer_updField (st : GameState) (fid : ℕ) (g : Field → Field) (j : ℕ) :
    getPlayer (updField st fid g) j = getPlayer st j := rfl

theorem players_length_updPlayer (st : GameState) (pid : ℕ) (g : Player → Player) :
    (updPlayer st pid g).players.length = st.players.length := by
  simp [updPlayer]

theorem players_length_updField (st : GameState) (fid : ℕ) (g : Field → Field) :
    (updField st fid g).players.length = st.players.length := rfl

theorem fields_length_updPlayer (st : GameState) (pid : ℕ) (g : Player → Player) :
    (updPlayer st pid g).fields.length = st.fields.length := rfl

theorem fields_length_updField (st : GameState) (fid : ℕ) (g : Field → Field) :
    (updField st fid g).fields.length = st.fields.length := by
  simp [updField]

/-! ### Claim C7: termination of the out-of-turn phase loop -/

theorem ootAux_le (moves : ℕ → ℕ) (n : ℕ) :
    ∀ fuel t skip, ootAux moves n fuel t skip ≤ t + fuel := by
  intro fuel
  induction fuel with
  | zero => intro t skip; simp [ootAux]
  | succ f ih =>
    intro t skip
    simp only [ootAux]
    by_cases h : skip < n
    · rw [if_pos h]
      calc ootAux moves n f (t + 1) (if moves t = 2 then skip + 1 else 0) ≤ (t + 1) + f :=
            ih (t + 1) _
        _ = t + (f + 1) := by omega
    · rw [if_neg h]; omega

theorem ootAux_window (moves : ℕ → ℕ) (n t₀ : ℕ)
    (hw : ∀ j, t₀ ≤ j → j < t₀ + n → moves j = 2) :
    ∀ fuel t skip, t ≤ t₀ + n → (t₀ ≤ t → t - t₀ ≤ skip) →
      ootAux moves n fuel t skip ≤ t₀ + n := by
  intro fuel
  induction fuel with
  | zero => intro t skip ht _; simpa [ootAux] using ht
  | succ f ih =>
    intro t skip ht hsk
    simp only [ootAux]
    by_cases h : skip < n
    · rw [if_pos h]
      have htlt : t < t₀ + n := by
        rcases Nat.lt_or_ge t (t₀ + n) with h' | h'
        · exact h'
        · exfalso
          have h1 : t = t₀ + n := le_antisymm ht h'
          have h2 : t₀ ≤ t := by omega
          have := hsk h2
          omega
      apply ih (t + 1) _ (by omega)
      intro h1
      split
      · next hmv =>
        by_cases h2 : t₀ ≤ t
        · have := hsk h2; omega
        · omega
      · next hmv =>
        by_cases h2 : t₀ ≤ t
        · exact absurd (hw t h2 htlt) hmv
        · omega
    · rw [if_neg h]; exact ht

/-- Claim C7: for every move-code stream and every number `n` of in-game
    players, the out-of-turn loop of `GameRound.next_turn` runs at most
    `5 * n` iterations, and it has exited by the end of any window of `n`
    consecutive iterations that all return the skip code 2. -/
theorem claim_C7_oot_loop_terminates (moves : ℕ → ℕ) (n : ℕ) :
    ootLoopCount moves n ≤ 5 * n ∧
    (∀ t₀, (∀ j, t₀ ≤ j → j < t₀ + n → moves j = 2) →
      ootLoopCount moves n ≤ t₀ + n) := by
  constructor
  · simpa using ootAux_le moves n (5 * n) 0 0
  · intro t₀ hw
    exact ootAux_window moves n t₀ hw (5 * n) 0 0 (by omega) (by omega)

/-- Witness for C7: with three in-game players all of whom always skip,
    the loop stops after one full round of three iterations (and within
    the 15-iteration cap). -/
theorem claim_C7_witness :
    ootLoopCount (fun _ => 2) 3 ≤ 5 * 3 ∧ ootLoopCount (fun _ => 2) 3 ≤ 0 + 3 :=
  ⟨(claim_C7_oot_loop_terminates (fun _ => 2) 3).1,
   (claim_C7_oot_loop_terminates (fun _ => 2) 3).2 0 (fun _ _ _ => rfl)⟩

/-! ### Claim C2: the jail-free card draw never grants the player flag -/

/-- Claim C2 (code bug): drawing from the chance deck while its cursor
    sits on the unclaimed `GetOutOfJailFree` card marks the card claimed
    (`jail_card_out` becomes true and the cursor advances), but the
    drawing player's `chance_jail_free_card` flag stays false, because
    `get_chance_cards` instantiates the no-op base class instead of the
    `ChanceJailFreeCard` subclass; the last conjunct shows the unused
    subclass would have granted the flag. -/
theorem claim_C2_jail_card_draw_bug :
    stDeck7.chanceDeck.jail_card_out = false ∧
    stDeck7.chanceDeck.cards_stack.getD stDeck7.chanceDeck.stack_pos .getOutOfJailFree
      = Card.getOutOfJailFree ∧
    (run 3 (.deck true 0) stDeck7).chanceDeck.jail_card_out = true ∧
    (run 3 (.deck true 0) stDeck7).chanceDeck.stack_pos = 8 ∧
    (getPlayer (run 3 (.deck true 0) stDeck7) 0).chance_jail_free_card = false ∧
    (getPlayer (run 3 (.deck true 0) stDeck7) 0).community_jail_free_card = false ∧
    (getPlayer (run 1 (.card .chanceJailFreeCard 0) stDeck7) 0).chance_jail_free_card
      = true := by
  refine ⟨rfl, rfl, rfl, rfl, rfl, rfl, rfl⟩

/-! ### Claim C3: invariant I3 is not enforced -/

/-- Claim C3 (code bug): in `stFix`, the mortgaged brown property 2 is
    offered for improvement by `identify_properties_to_improve` and
    `make_builds` raises its build level while it stays mortgaged; and
    the level-3 red property 3 is marked mortgageable by
    `apply_mortgage_masking`'s row and `Purchasable.mortgage` mortgages
    it while built on.  Both directions of invariant I3 are violated. -/
theorem claim_C3_i3_not_enforced :
    (getField stFix 2).is_mortgage = true ∧
    (2, 1) ∈ identify_properties_to_improve stFix 0 ∧
    (getField (make_builds stFix 0) 2).build_level = 1 ∧
    (getField (make_builds stFix 0) 2).is_mortgage = true ∧
    (getField stFix 3).build_level = 3 ∧
    (getField stFix 3).is_mortgage = false ∧
    (mortgageMask stFix 0).getD 2 false = true ∧
    (getField (mortgageProperty stFix 3) 3).is_mortgage = true ∧
    (getField (mortgageProperty stFix 3) 3).build_level = 3 := by
  have him : identify_properties_to_improve stFix 0 = [(1, 1), (2, 1), (3, 4)] := by
    decide
  have hmb : (getField (make_builds stFix 0) 2).build_level = 1 ∧
      (getField (make_builds stFix 0) 2).is_mortgage = true := by
    rw [make_builds, him]
    simp only [List.map_cons, List.map_nil, List.foldl_cons, List.foldl_nil]
    constructor <;>
      norm_num [getField, getPlayer, updField, updMoney, updPlayer, stFix, mkProp,
        List.getElem?_cons_zero, List.getElem?_cons_succ, List.getElem_cons_zero,
        List.getElem_cons_succ, Option.getD_some, List.set]
  have hmp : (getField (mortgageProperty stFix 3) 3).is_mortgage = true ∧
      (getField (mortgageProperty stFix 3) 3).build_level = 3 := by
    rw [mortgageProperty]
    constructor <;>
      norm_num [getField, getPlayer, updField, updMoney, updPlayer, stFix, mkProp,
        List.getElem?_cons_zero, List.getElem?_cons_succ, List.getElem_cons_zero,
        List.getElem_cons_succ, Option.getD_some, List.set]
  exact ⟨rfl, by decide, hmb.1, hmb.2, rfl, rfl, by decide, hmp.1, hmp.2⟩

/-! ### Claim C8: exchange offers are never accepted by the rule-based
    evaluator -/

/-- Claim C8: when the player's pending offer names both a requested and
    an offered property, `_get_offer_type` labels it `"exchange_offer"`,
    but `consider_offer` compares against the misspelled literal
    `"echange_offer"`, so the evaluation falls through every branch and
    returns `False`. -/
theorem claim_C8_exchange_never_accepted (st : GameState) (pid : ℕ)
    (off : Offer) (r s : ℕ)
    (hpo : (getPlayer st pid).pending_offer = some off)
    (hr : off.property_requested = some r)
    (hs : off.property_offered = some s) :
    consider_offer st pid = some false := by
  simp only [consider_offer, getOfferType, hpo, hr, hs]
  rw [if_neg (by decide : ¬ ("exchange_offer" = "sell_to_player")),
    if_neg (by decide : ¬ ("exchange_offer" = "buy_from_player")),
    if_neg (by decide : ¬ ("exchange_offer" = "echange_offer"))]

/-- Witness for C8: in `stTrade`, player 1 holds the pending
    `exchangeOffer` (both properties set) and evaluates it to `False`. -/
theorem claim_C8_witness :
    (getPlayer stTrade 1).pending_offer = some exchangeOffer ∧
    consider_offer stTrade 1 = some false :=
  ⟨rfl, claim_C8_exchange_never_accepted stTrade 1 exchangeOffer 3 2 rfl rfl rfl⟩

/-! ### Claim C4: the jail exemption in `Purchasable.react` -/

/-- Claim C4 counterexample: in `stJailed`, player 0 (in jail, one turn
    remaining) stands on property 1 owned by player 1 with rent 10, yet
    `react` returns the state unchanged and no fee is transferred — so
    the claim that "being in jail does not exempt the landing player"
    is false on the code (`if player.jail_turns_remain: return`). -/
theorem claim_C4_counterexample :
    (getField stJailed 1).owner = some 1 ∧
    (getPlayer stJailed 0).jail_turns_remain = 1 ∧
    feeAmount stJailed 1 none = 10 ∧
    purchasableReact stJailed 1 0 none = stJailed ∧
    ¬ ((getPlayer (purchasableReact stJailed 1 0 none) 0).money =
        (getPlayer stJailed 0).money - (feeAmount stJailed 1 none : ℚ)) := by
  refine ⟨rfl, rfl, rfl, rfl, ?_⟩
  show (100 : ℚ) = 100 - (10 : ℕ) → False
  norm_num

/-- Claim C4 as amended: when a `Purchasable` field with owner `o` is
    entered (`react`) by a different player, the fee computed by the
    `fee_` implementations moves from the landing player to the owner
    provided the landing player is not in jail; a landing player with
    `jail_turns_remain > 0` is exempt and the state is returned
    unchanged. -/
theorem claim_C4_amended (st : GameState) (fid pid o : ℕ) (force : Option ℕ)
    (how : (getField st fid).owner = some o) (hne : pid ≠ o)
    (hpid : pid < st.players.length) (ho : o < st.players.length) :
    ((getPlayer st pid).jail_turns_remain ≠ 0 →
      purchasableReact st fid pid force = st) ∧
    ((getPlayer st pid).jail_turns_remain = 0 →
      (getPlayer (purchasableReact st fid pid force) pid).money =
        (getPlayer st pid).money - (feeAmount st fid force : ℚ) ∧
      (getPlayer (purchasableReact st fid pid force) o).money =
        (getPlayer st o).money + (feeAmount st fid force : ℚ)) := by
  constructor
  · intro hjail
    simp only [purchasableReact, how]
    rw [if_neg hne, if_pos hjail]
  · intro hjail
    simp only [purchasableReact, how]
    rw [if_neg hne, if_neg (by simp [hjail])]
    simp only [feeTransfer, how]
    by_cases hm : (getField st fid).kind = FieldKind.property ∧
        (getField st fid).is_mortgage = true
    · rw [if_pos (by simpa using hm)]
      have hz : feeAmount st fid force = 0 := by
        simp only [feeAmount, hm.1]
        simp [hm.2]
      rw [hz]
      push_cast
      constructor <;> ring
    · rw [if_neg (by simpa using hm)]
      set st1 := (if (getField st fid).kind = FieldKind.utility ∧ force = none
        then (popRoll st).2 else st) with hst1
      have hpl1 : st1.players = st.players := by
        rw [hst1]; split <;> rfl
      have hget1 : ∀ j, getPlayer st1 j = getPlayer st j := by
        intro j; unfold getPlayer; rw [hpl1]
      have hlen1 : st1.players.length = st.players.length := by rw [hpl1]
      constructor
      · simp only [updMoney, getPlayer_updPlayer, players_length_updPlayer, hlen1]
        simp only [Ne.symm hne, false_and, if_false, hpid, and_true, if_true,
          eq_self_iff_true, hget1, reduceIte]
        ring
      · simp only [updMoney, getPlayer_updPlayer, players_length_updPlayer, hlen1]
        simp only [hne, false_and, if_false, ho, and_true, if_true,
          eq_self_iff_true, hget1, reduceIte]

/-- Witness for C4's amended statement: in `stFree` the un-jailed
    player 0 lands on property 1 (owner 1, rent 10) and the transfer
    happens. -/
theorem claim_C4_witness :
    (getField stFree 1).owner = some 1 ∧
    (getPlayer stFree 0).jail_turns_remain = 0 ∧
    (getPlayer (purchasableReact stFree 1 0 none) 0).money =
      (getPlayer stFree 0).money - (feeAmount stFree 1 none : ℚ) ∧
    (getPlayer (purchasableReact stFree 1 0 none) 1).money =
      (getPlayer stFree 1).money + (feeAmount stFree 1 none : ℚ) := by
  refine ⟨rfl, rfl, ?_⟩
  exact (claim_C4_amended stFree 1 0 1 none rfl (by decide) (by decide)
    (by decide)).2 rfl

/-! ### Claim C9: card-deck state is shared between game instances -/

/-- Claim C9 counterexample: the deck state is *not* independent between
    two `GameRound` instances.  In `sharedW0`, a chance draw performed by
    game one changes the deck cursor that game two observes (the decks
    are class attributes of `ChanceField`/`CommunityChest`, shared by all
    instances), refuting the claimed two-run noninterference. -/
theorem claim_C9_counterexample :
    ((sharedW0.drawChanceIn true 0 2).observedChance false).stack_pos ≠
      (sharedW0.observedChance false).stack_pos := by decide

/-- Claim C9 as amended: the decks are class-level state shared by every
    `GameRound` in the process.  A draw in either game (from a cursor
    that needs no reshuffle or jail-card skip, on a card that does not
    itself touch the chance deck) advances the cursor *both* games
    observe by one and preserves the shared card order; and consuming a
    chance jail-free card in either game clears the `jail_card_out` flag
    observed by the other. -/
theorem claim_C9_amended (w : SharedWorld) (i : Bool) (pid fuel : ℕ)
    (hfuel : 1 ≤ fuel)
    (hpos : (w.observedChance i).stack_pos < (w.observedChance i).cards_stack.length)
    (hout : (w.observedChance i).jail_card_out = false)
    (hneutral : ∀ f q stq, (run f (.card ((w.observedChance i).cards_stack.getD
        (w.observedChance i).stack_pos .getOutOfJailFree) q) stq).chanceDeck =
        stq.chanceDeck) :
    (∀ j : Bool, ((w.drawChanceIn i pid fuel).observedChance j).stack_pos =
        (w.observedChance j).stack_pos + 1 ∧
      ((w.drawChanceIn i pid fuel).observedChance j).cards_stack =
        (w.observedChance j).cards_stack) ∧
    (∀ (v : SharedWorld) (jb : Bool) (q : ℕ),
      (getPlayer (v.view jb) q).chance_jail_free_card = true →
      ∀ j : Bool, ((v.useJailFreeIn jb q).observedChance j).jail_card_out = false) := by
  constructor
  · intro j
    obtain ⟨f, rfl⟩ : ∃ f, fuel = f + 1 := ⟨fuel - 1, by omega⟩
    have hob : ∀ jb : Bool, w.observedChance jb = w.chanceDeck := by
      intro jb; cases jb <;> rfl
    rw [hob] at hpos hout
    simp only [SharedWorld.drawChanceIn, SharedWorld.observedChance]
    have hview : (w.view i).chanceDeck = w.chanceDeck := by cases i <;> rfl
    simp only [run, getDeck, setDeck, if_true, hview]
    rw [if_neg (Nat.ne_of_lt hpos)]
    simp only [hout, Bool.false_eq_true, false_and, if_false, reduceIte, hob]
    rw [hob] at hneutral
    by_cases hjf : (w.chanceDeck.cards_stack.getD w.chanceDeck.stack_pos
        Card.getOutOfJailFree).isJailFree = true
    · simp only [hjf, if_true, reduceIte, hneutral]
      constructor <;> rfl
    · simp only [hjf, if_false, reduceIte, hneutral]
      constructor <;> rfl
  · intro v jb q hcard j
    simp only [SharedWorld.useJailFreeIn, use_jail_free_card, hcard, if_true,
      SharedWorld.observedChance, reduceIte]
    cases j <;> cases jb <;> rfl

/-- Witness for C9's amended statement: drawing `BankDividend` (cursor 6)
    in game one advances the cursor game two observes from 6 to 7. -/
theorem claim_C9_witness :
    (1 ≤ 2 ∧ (sharedW0.observedChance true).stack_pos <
      (sharedW0.observedChance true).cards_stack.length ∧
      (sharedW0.observedChance true).jail_card_out = false) ∧
    ((sharedW0.drawChanceIn true 0 2).observedChance false).stack_pos =
      (sharedW0.observedChance false).stack_pos + 1 :=
  ⟨⟨by decide, by decide, rfl⟩,
   ((claim_C9_amended sharedW0 true 0 2 (by decide) (by decide) rfl
      (fun f q stq => by cases f <;> rfl)).1 false).1⟩

/-! ### Claim C6: the improve-buildings legality mask -/

/-- Every entry of `identify_properties_to_improve` is an owned real
    estate in a fully-owned color group at the group-minimum build level
    below 5, paired with the next level. -/
theorem mem_identify_improve (st : GameState) (pid : ℕ) (a : ℕ × ℕ)
    (ha : a ∈ identify_properties_to_improve st pid) :
    a.1 ∈ (getPlayer st pid).properties ∧
    (∃ grp, getPropertyGroupIds st a.1 = some grp ∧
      (∀ g ∈ grp, g ∈ (getPlayer st pid).properties) ∧
      (grp.map (fun p_id => (getField st p_id).build_level)).min? =
        some (getField st a.1).build_level) ∧
    (getField st a.1).build_level < 5 ∧
    a.2 = (getField st a.1).build_level + 1 := by
  unfold identify_properties_to_improve at ha
  rw [List.mem_filterMap] at ha
  obtain ⟨property_id, hmem, hf⟩ := ha
  by_cases h1 : (getField st property_id).hasColor = true
  · rw [if_neg (not_not_intro h1)] at hf
    rcases hgrp : getPropertyGroupIds st property_id with _ | grp
    · rw [hgrp] at hf; simp at hf
    · rw [hgrp] at hf
      dsimp only [] at hf
      by_cases h2 : (grp.all (fun g => decide (g ∈ (getPlayer st pid).properties))) = true
      · rw [if_neg (not_not_intro h2)] at hf
        by_cases h3 : (grp.map (fun p_id => (getField st p_id).build_level)).min? =
            some (getField st property_id).build_level ∧
            (getField st property_id).build_level < 5
        · rw [if_pos h3] at hf
          obtain rfl := Option.some_injective _ hf.symm
          simp only [List.all_eq_true, decide_eq_true_eq] at h2
          exact ⟨hmem, ⟨grp, hgrp, h2, h3.1⟩, h3.2, rfl⟩
        · rw [if_neg h3] at hf
          simp at hf
      · rw [if_pos h2] at hf
        simp at hf
  · rw [if_pos h1] at hf
    simp at hf

/-- Claim C6: an entry marked legal in the houses (resp. hotels) row of
    `apply_improve_buildings_masking` is a real estate whose color group
    the player fully owns, whose build level is the group minimum and
    below 5, and whose next level is at most 4 (resp. exactly 5),
    mirroring the even-building rule.  `hwf` is the board well-formedness
    (field ids are board positions). -/
theorem claim_C6_improve_mask (st : GameState) (pid i : ℕ)
    (hwf : ∀ j (h : j < st.fields.length), (st.fields.get ⟨j, h⟩).id = j) :
    ((housesMask st pid).getD i false = true →
      getField st ((getRealEstates st).getD i dfltField).id =
          (getRealEstates st).getD i dfltField ∧
      (∃ grp, getPropertyGroupIds st ((getRealEstates st).getD i dfltField).id
          = some grp ∧
        (∀ g ∈ grp, g ∈ (getPlayer st pid).properties) ∧
        (grp.map (fun p_id => (getField st p_id).build_level)).min? =
          some ((getRealEstates st).getD i dfltField).build_level) ∧
      ((getRealEstates st).getD i dfltField).build_level < 5 ∧
      ((getRealEstates st).getD i dfltField).build_level + 1 ≤ 4) ∧
    ((hotelsMask st pid).getD i false = true →
      getField st ((getRealEstates st).getD i dfltField).id =
          (getRealEstates st).getD i dfltField ∧
      (∃ grp, getPropertyGroupIds st ((getRealEstates st).getD i dfltField).id
          = some grp ∧
        (∀ g ∈ grp, g ∈ (getPlayer st pid).properties) ∧
        (grp.map (fun p_id => (getField st p_id).build_level)).min? =
          some ((getRealEstates st).getD i dfltField).build_level) ∧
      ((getRealEstates st).getD i dfltField).build_level < 5 ∧
      ((getRealEstates st).getD i dfltField).build_level + 1 = 5) := by
  have hgf : ∀ p : Field, p ∈ getRealEstates st → getField st p.id = p := by
    intro p hp
    have hmemf : p ∈ st.fields := List.mem_of_mem_filter hp
    obtain ⟨j, hj, hpj⟩ := List.mem_iff_getElem.mp hmemf
    have hid : p.id = j := by rw [← hpj]; exact hwf j hj
    unfold getField
    rw [hid, List.getElem?_eq_getElem hj, hpj]
    rfl
  constructor
  · intro hm
    simp only [housesMask] at hm
    rcases hle : (getRealEstates st)[i]? with _ | p
    · rw [List.getD_eq_getElem?_getD, List.getElem?_map, hle] at hm
      simp at hm
    · rw [List.getD_eq_getElem?_getD, List.getElem?_map, hle] at hm
      simp only [Option.map_some', Option.getD_some, decide_eq_true_eq] at hm
      have hpd : (getRealEstates st).getD i dfltField = p := by
        rw [List.getD_eq_getElem?_getD, hle]; rfl
      rw [hpd]
      obtain ⟨a, hafil, haid⟩ := List.mem_map.mp hm
      obtain ⟨haimp, hlt5⟩ := List.mem_filter.mp hafil
      obtain ⟨-, hgrp, hl5, hnext⟩ := mem_identify_improve st pid a haimp
      rw [haid] at hgrp hl5 hnext
      have hp : getField st p.id = p := hgf p (List.getElem?_mem hle)
      rw [hp] at hgrp hl5 hnext
      simp only [decide_eq_true_eq] at hlt5
      refine ⟨hp, hgrp, hl5, ?_⟩
      omega
  · intro hm
    simp only [hotelsMask] at hm
    rcases hle : (getRealEstates st)[i]? with _ | p
    · rw [List.getD_eq_getElem?_getD, List.getElem?_map, hle] at hm
      simp at hm
    · rw [List.getD_eq_getElem?_getD, List.getElem?_map, hle] at hm
      simp only [Option.map_some', Option.getD_some, decide_eq_true_eq] at hm
      have hpd : (getRealEstates st).getD i dfltField = p := by
        rw [List.getD_eq_getElem?_getD, hle]; rfl
      rw [hpd]
      obtain ⟨a, hafil, haid⟩ := List.mem_map.mp hm
      obtain ⟨haimp, heq5⟩ := List.mem_filter.mp hafil
      obtain ⟨-, hgrp, hl5, hnext⟩ := mem_identify_improve st pid a haimp
      rw [haid] at hgrp hl5 hnext
      have hp : getField st p.id = p := hgf p (List.getElem?_mem hle)
      rw [hp] at hgrp hl5 hnext
      simp only [decide_eq_true_eq] at heq5
      refine ⟨hp, hgrp, hl5, ?_⟩
      omega

/-- Witness for C6: in `stFix` the first real-estate entry (brown
    property 1) is legal in the houses row and satisfies the conditions. -/
theorem claim_C6_witness :
    (housesMask stFix 0).getD 0 false = true ∧
    (getField stFix ((getRealEstates stFix).getD 0 dfltField).id =
        (getRealEstates stFix).getD 0 dfltField ∧
      (∃ grp, getPropertyGroupIds stFix ((getRealEstates stFix).getD 0 dfltField).id
          = some grp ∧
        (∀ g ∈ grp, g ∈ (getPlayer stFix 0).properties) ∧
        (grp.map (fun p_id => (getField stFix p_id).build_level)).min? =
          some ((getRealEstates stFix).getD 0 dfltField).build_level) ∧
      ((getRealEstates stFix).getD 0 dfltField).build_level < 5 ∧
      ((getRealEstates stFix).getD 0 dfltField).build_level + 1 ≤ 4) :=
  ⟨by decide, (claim_C6_improve_mask stFix 0 0 (by decide)).1 (by decide)⟩

/-! ### Claim C10: the position invariant -/

theorem setDeck_players (ch : Bool) (st : GameState) (d : DeckState) :
    (setDeck ch st d).players = st.players := by cases ch <;> rfl

theorem setDeck_fields (ch : Bool) (st : GameState) (d : DeckState) :
    (setDeck ch st d).fields = st.fields := by cases ch <;> rfl

theorem setDeck_prison (ch : Bool) (st : GameState) (d : DeckState) :
    (setDeck ch st d).prison_id = st.prison_id := by cases ch <;> rfl

theorem posOK_congr {st st' : GameState} (h : st'.players = st.players)
    (hp : PosOK st) : PosOK st' := by
  intro p hm
  rw [h] at hm
  exact hp p hm

theorem getPlayer_pos_lt {st : GameState} (hp : PosOK st) (pid : ℕ) :
    (getPlayer st pid).pos < 40 := by
  unfold getPlayer
  cases h : st.players[pid]? with
  | none => exact Nat.lt_of_sub_eq_succ rfl
  | some p => exact hp p (List.getElem?_mem h)

theorem posOK_updPlayer {st : GameState} (pid : ℕ) (g : Player → Player)
    (hp : PosOK st) (hg : (g (getPlayer st pid)).pos < 40) :
    PosOK (updPlayer st pid g) := by
  intro p hm
  rcases List.mem_or_eq_of_mem_set hm with h | rfl
  · exact hp p h
  · exact hg

theorem posOK_updMoney {st : GameState} (pid : ℕ) (d : ℚ) (hp : PosOK st) :
    PosOK (updMoney st pid d) :=
  posOK_updPlayer pid _ hp (getPlayer_pos_lt hp pid)

theorem posOK_setPos {st : GameState} (pid v : ℕ) (hv : v < 40) (hp : PosOK st) :
    PosOK (setPos st pid v) :=
  posOK_updPlayer pid _ hp hv

theorem posOK_put_in_prison {st : GameState} (pid : ℕ)
    (hpr : st.prison_id < 40) (hp : PosOK st) : PosOK (put_in_prison st pid) :=
  posOK_updPlayer pid _ hp hpr

theorem goBack3_lt (pos : ℕ) (h : pos < 40) : goBack3 pos < 40 := by
  unfold goBack3
  split <;> omega

theorem getField_id_lt {st : GameState} (hb : ∀ f ∈ st.fields, f.id < 40)
    (fid : ℕ) : (getField st fid).id < 40 := by
  unfold getField
  cases h : st.fields[fid]? with
  | none => exact Nat.lt_of_sub_eq_succ rfl
  | some f => exact hb f (List.getElem?_mem h)

theorem get_nearest_field_mem {fields : List Field} {pos : ℕ} {k : FieldKind}
    {f : Field} (h : get_nearest_field fields pos k = some f) : f ∈ fields := by
  unfold get_nearest_field at h
  rcases hfit : fields.filter (fun g => decide (g.kind = k)) with _ | ⟨f0, rest⟩
  · rw [hfit] at h; simp at h
  · rw [hfit] at h
    dsimp only [] at h
    have hsub : ∀ x, x ∈ f0 :: rest → x ∈ fields := by
      intro x hx
      rw [← hfit] at hx
      exact List.mem_of_mem_filter hx
    split at h
    · exact hsub f (by injection h with h'; rw [← h']; exact List.mem_cons_self f0 rest)
    · split at h
      · next i hi =>
        exact hsub f (List.getElem?_mem h)
      · exact hsub f (by injection h with h'; rw [← h']; exact List.mem_cons_self f0 rest)

theorem foldl_state_invariant (l : List ℕ) (f : GameState → ℕ → GameState)
    (hf : ∀ s a, (f s a).fields = s.fields ∧ (f s a).prison_id = s.prison_id ∧
      (PosOK s → PosOK (f s a))) :
    ∀ st, (l.foldl f st).fields = st.fields ∧
      (l.foldl f st).prison_id = st.prison_id ∧
      (PosOK st → PosOK (l.foldl f st)) := by
  induction l with
  | nil => intro st; exact ⟨rfl, rfl, id⟩
  | cons a l ih =>
    intro st
    obtain ⟨h1, h2, h3⟩ := hf st a
    obtain ⟨g1, g2, g3⟩ := ih (f st a)
    exact ⟨g1.trans h1, g2.trans h2, fun hp => g3 (h3 hp)⟩

theorem payEachOther_invariant (st : GameState) (pid : ℕ) (amt : ℚ) :
    (payEachOther st pid amt).fields = st.fields ∧
    (payEachOther st pid amt).prison_id = st.prison_id ∧
    (PosOK st → PosOK (payEachOther st pid amt)) := by
  unfold payEachOther
  apply foldl_state_invariant
  intro s a
  split
  · exact ⟨rfl, rfl, fun hp => posOK_updMoney _ _ (posOK_updMoney _ _ hp)⟩
  · exact ⟨rfl, rfl, id⟩

theorem purchasableReact_invariant (st : GameState) (fid pid : ℕ)
    (force : Option ℕ) :
    (purchasableReact st fid pid force).fields = st.fields ∧
    (purchasableReact st fid pid force).prison_id = st.prison_id ∧
    (PosOK st → PosOK (purchasableReact st fid pid force)) := by
  rcases how : (getField st fid).owner with _ | o
  · simp only [purchasableReact, how]
    exact ⟨by trivial, by trivial, id⟩
  · simp only [purchasableReact, how]
    by_cases h1 : pid = o
    · simp only [h1, if_true, reduceIte]
      exact ⟨by trivial, by trivial, id⟩
    · rw [if_neg h1]
      by_cases h2 : (getPlayer st pid).jail_turns_remain ≠ 0
      · rw [if_pos h2]
        exact ⟨by trivial, by trivial, id⟩
      · rw [if_neg h2]
        simp only [feeTransfer, how]
        by_cases h3 : (getField st fid).kind = FieldKind.property ∧
            (getField st fid).is_mortgage = true
        · rw [if_pos (by simpa using h3)]
          exact ⟨by trivial, by trivial, id⟩
        · rw [if_neg (by simpa using h3)]
          by_cases h4 : (getField st fid).kind = FieldKind.utility ∧ force = none
          · rw [if_pos h4]
            exact ⟨rfl, rfl, fun hp =>
              posOK_updMoney _ _ (posOK_updMoney _ _ (posOK_congr rfl hp))⟩
          · rw [if_neg h4]
            exact ⟨rfl, rfl, fun hp => posOK_updMoney _ _ (posOK_updMoney _ _ hp)⟩

theorem popShuffle_fields (st : GameState) : ((popShuffle st).2).fields = st.fields := rfl

theorem popShuffle_prison (st : GameState) : ((popShuffle st).2).prison_id = st.prison_id := rfl

theorem popShuffle_players (st : GameState) : ((popShuffle st).2).players = st.players := rfl

theorem boardOK_congr {st st' : GameState} (h1 : st'.fields = st.fields)
    (h2 : st'.prison_id = st.prison_id) (hb : BoardOK st) : BoardOK st' := by
  obtain ⟨b1, b2, b3⟩ := hb
  exact ⟨by rw [h1]; exact b1, by rw [h1]; exact b2, by rw [h2]; exact b3⟩

theorem run_invariant (fuel : ℕ) : ∀ (job : Job) (st : GameState),
    (run fuel job st).fields = st.fields ∧
    (run fuel job st).prison_id = st.prison_id ∧
    (BoardOK st → PosOK st → PosOK (run fuel job st)) := by
  induction fuel with
  | zero => intro job st; exact ⟨rfl, rfl, fun _ => id⟩
  | succ f ih =>
    intro job st
    cases job with
    | card c pid =>
      cases c with
      | advanceToBoardwalk =>
        obtain ⟨h1, h2, h3⟩ := ih (.field 39 pid) (setPos st pid 39)
        exact ⟨h1, h2, fun hb hp =>
          h3 (boardOK_congr rfl rfl hb) (posOK_setPos pid 39 (by omega) hp)⟩
      | advanceToGo =>
        exact ⟨rfl, rfl, fun _ hp =>
          posOK_updMoney _ _ (posOK_setPos pid 0 (by omega) hp)⟩
      | advanceToIllinoisAvenue =>
        obtain ⟨h1, h2, h3⟩ := ih (.field 24 pid) (setPos st pid 24)
        exact ⟨h1, h2, fun hb hp =>
          h3 (boardOK_congr rfl rfl hb) (posOK_setPos pid 24 (by omega) hp)⟩
      | advanceToCharlesPlace =>
        obtain ⟨h1, h2, h3⟩ := ih (.field 11 pid) (setPos st pid 11)
        exact ⟨h1, h2, fun hb hp =>
          h3 (boardOK_congr rfl rfl hb) (posOK_setPos pid 11 (by omega) hp)⟩
      | advanceToNearestRailroad =>
        simp only [run]
        rcases hnf : get_nearest_field st.fields (getPlayer st pid).pos FieldKind.train
          with _ | nf
        · exact ⟨rfl, rfl, fun _ => id⟩
        · obtain ⟨p1, p2, p3⟩ := purchasableReact_invariant
            (setPos st pid nf.id) nf.id pid none
          obtain ⟨q1, q2, q3⟩ := purchasableReact_invariant
            (purchasableReact (setPos st pid nf.id) nf.id pid none) nf.id pid none
          refine ⟨q1.trans p1, q2.trans p2, fun hb hp => ?_⟩
          have hid : nf.id < 40 := hb.2.1 nf (get_nearest_field_mem hnf)
          exact q3 (p3 (posOK_setPos pid nf.id hid hp))
      | advanceToNearestUtility =>
        simp only [run]
        rcases hnf : get_nearest_field st.fields (getPlayer st pid).pos FieldKind.utility
          with _ | nf
        · exact ⟨rfl, rfl, fun _ => id⟩
        · dsimp only []
          by_cases ho : (getField (setPos st pid nf.id) nf.id).owner ≠ none
          · rw [if_pos ho]
            obtain ⟨p1, p2, p3⟩ := purchasableReact_invariant
              ((popRoll (setPos st pid nf.id)).2) nf.id pid
              (some ((popRoll (setPos st pid nf.id)).1 * 10))
            refine ⟨p1, p2, fun hb hp => ?_⟩
            have hid : nf.id < 40 := hb.2.1 nf (get_nearest_field_mem hnf)
            exact p3 (posOK_congr rfl (posOK_setPos pid nf.id hid hp))
          · rw [if_neg ho]
            obtain ⟨p1, p2, p3⟩ := purchasableReact_invariant
              (setPos st pid nf.id) nf.id pid (some (0 * 10))
            refine ⟨p1, p2, fun hb hp => ?_⟩
            have hid : nf.id < 40 := hb.2.1 nf (get_nearest_field_mem hnf)
            exact p3 (posOK_setPos pid nf.id hid hp)
      | bankDividend => exact ⟨rfl, rfl, fun _ hp => posOK_updMoney _ _ hp⟩
      | getOutOfJailFree => exact ⟨rfl, rfl, fun _ => id⟩
      | communityJailFree =>
        exact ⟨rfl, rfl, fun _ hp =>
          posOK_updPlayer pid _ hp (getPlayer_pos_lt hp pid)⟩
      | chanceJailFreeCard =>
        exact ⟨rfl, rfl, fun _ hp =>
          posOK_updPlayer pid _ hp (getPlayer_pos_lt hp pid)⟩
      | goBack3Spaces =>
        obtain ⟨h1, h2, h3⟩ := ih (.field (goBack3 (getPlayer st pid).pos) pid)
          (setPos st pid (goBack3 (getPlayer st pid).pos))
        exact ⟨h1, h2, fun hb hp =>
          h3 (boardOK_congr rfl rfl hb)
            (posOK_setPos pid _ (goBack3_lt _ (getPlayer_pos_lt hp pid)) hp)⟩
      | goToJailCard =>
        exact ⟨rfl, rfl, fun hb hp => posOK_put_in_prison pid hb.2.2 hp⟩
      | repairsOfProperties => exact ⟨rfl, rfl, fun _ hp => posOK_updMoney _ _ hp⟩
      | speedingFines => exact ⟨rfl, rfl, fun _ hp => posOK_updMoney _ _ hp⟩
      | goToReadingRailroad =>
        simp only [run]
        by_cases hc : (getField st 5).id < (getPlayer st pid).pos
        · rw [if_pos hc]
          exact ⟨rfl, rfl, fun hb hp =>
            posOK_setPos pid _ (getField_id_lt hb.2.1 5) (posOK_updMoney _ _ hp)⟩
        · rw [if_neg hc]
          exact ⟨rfl, rfl, fun hb hp =>
            posOK_setPos pid _ (getField_id_lt hb.2.1 5) hp⟩
      | chairmanElection =>
        obtain ⟨h1, h2, h3⟩ := payEachOther_invariant st pid 50
        exact ⟨h1, h2, fun _ => h3⟩
      | loanMatures => exact ⟨rfl, rfl, fun _ hp => posOK_updMoney _ _ hp⟩
      | bankError => exact ⟨rfl, rfl, fun _ hp => posOK_updMoney _ _ hp⟩
      | docktorFee => exact ⟨rfl, rfl, fun _ hp => posOK_updMoney _ _ hp⟩
      | stockSale => exact ⟨rfl, rfl, fun _ hp => posOK_updMoney _ _ hp⟩
      | holidayFundMatures => exact ⟨rfl, rfl, fun _ hp => posOK_updMoney _ _ hp⟩
      | birthday =>
        obtain ⟨h1, h2, h3⟩ := payEachOther_invariant st pid 10
        exact ⟨h1, h2, fun _ => h3⟩
      | incomeTaxRefund => exact ⟨rfl, rfl, fun _ hp => posOK_updMoney _ _ hp⟩
      | lifeInsuranceMatures => exact ⟨rfl, rfl, fun _ hp => posOK_updMoney _ _ hp⟩
      | hospitalFees => exact ⟨rfl, rfl, fun _ hp => posOK_updMoney _ _ hp⟩
      | schoolFees => exact ⟨rfl, rfl, fun _ hp => posOK_updMoney _ _ hp⟩
      | consultancyFee => exact ⟨rfl, rfl, fun _ hp => posOK_updMoney _ _ hp⟩
      | streetRepair => exact ⟨rfl, rfl, fun _ hp => posOK_updMoney _ _ hp⟩
      | beautyPrize => exact ⟨rfl, rfl, fun _ hp => posOK_updMoney _ _ hp⟩
      | inheritanceCard => exact ⟨rfl, rfl, fun _ hp => posOK_updMoney _ _ hp⟩
    | field fid pid =>
      simp only [run]
      split <;>
        first
          | exact ⟨rfl, rfl, fun _ => id⟩
          | (obtain ⟨p1, p2, p3⟩ := purchasableReact_invariant st fid pid none
             exact ⟨p1, p2, fun _ => p3⟩)
          | exact ⟨rfl, rfl, fun _ hp => posOK_updMoney _ _ hp⟩
          | exact ⟨rfl, rfl, fun hb hp => posOK_put_in_prison pid hb.2.2 hp⟩
          | (obtain ⟨h1, h2, h3⟩ := ih (.deck true pid) st
             exact ⟨h1, h2, h3⟩)
          | (obtain ⟨h1, h2, h3⟩ := ih (.deck false pid) st
             exact ⟨h1, h2, h3⟩)
    | deck ch pid =>
      simp only [run]
      by_cases hr : (getDeck ch st).stack_pos = (getDeck ch st).cards_stack.length <;>
        [rw [if_pos hr]; rw [if_neg hr]] <;>
        dsimp only [] <;>
        split <;>
        (try (refine ⟨?_, ?_, ?_⟩
              · rw [(ih _ _).1]
                first
                  | rfl
                  | simp only [setDeck_fields, popShuffle_fields]
                  | (split <;> first
                      | rfl
                      | simp only [setDeck_fields, popShuffle_fields])
              · rw [(ih _ _).2.1]
                first
                  | rfl
                  | simp only [setDeck_prison, popShuffle_prison]
                  | (split <;> first
                      | rfl
                      | simp only [setDeck_prison, popShuffle_prison])
              · intro hb hp
                refine (ih _ _).2.2 ?_ ?_
                · refine boardOK_congr ?_ ?_ hb
                  · first
                  | rfl
                  | simp only [setDeck_fields, popShuffle_fields]
                  | (split <;> first
                      | rfl
                      | simp only [setDeck_fields, popShuffle_fields])
                  · first
                  | rfl
                  | simp only [setDeck_prison, popShuffle_prison]
                  | (split <;> first
                      | rfl
                      | simp only [setDeck_prison, popShuffle_prison])
                · refine posOK_congr ?_ hp
                  first
                  | rfl
                  | simp only [setDeck_players, popShuffle_players]
                  | (split <;> first
                      | rfl
                      | simp only [setDeck_players, popShuffle_players]))) <;>
        (refine ⟨?_, ?_, ?_⟩
         · rw [setDeck_fields, (ih _ _).1]
           first
                  | rfl
                  | simp only [setDeck_fields, popShuffle_fields]
                  | (split <;> first
                      | rfl
                      | simp only [setDeck_fields, popShuffle_fields])
         · rw [setDeck_prison, (ih _ _).2.1]
           first
                  | rfl
                  | simp only [setDeck_prison, popShuffle_prison]
                  | (split <;> first
                      | rfl
                      | simp only [setDeck_prison, popShuffle_prison])
         · intro hb hp
           refine posOK_congr (setDeck_players _ _ _) ((ih _ _).2.2 ?_ ?_)
           · refine boardOK_congr ?_ ?_ hb
             · first
                  | rfl
                  | simp only [setDeck_fields, popShuffle_fields]
                  | (split <;> first
                      | rfl
                      | simp only [setDeck_fields, popShuffle_fields])
             · first
                  | rfl
                  | simp only [setDeck_prison, popShuffle_prison]
                  | (split <;> first
                      | rfl
                      | simp only [setDeck_prison, popShuffle_prison])
           · refine posOK_congr ?_ hp
             first
                  | rfl
                  | simp only [setDeck_players, popShuffle_players]
                  | (split <;> first
                      | rfl
                      | simp only [setDeck_players, popShuffle_players]))

/-- Claim C10: every position-changing operation keeps positions in
    0..39 on a well-formed board: `make_roll` assigns
    `(old position + dice sum) % 40` (a value below 40) before reacting
    and preserves the invariant end to end; every card effect — including
    `GoBack3Spaces` with its backward wrap — preserves it; and
    `put_in_prison` assigns the jail field's id. -/
theorem claim_C10_positions (st : GameState) (pid roll_sum fuel : ℕ) (c : Card)
    (hb : BoardOK st) (hp : PosOK st) (hpid : pid < st.players.length) :
    makeRollPos st pid roll_sum = ((getPlayer st pid).pos + roll_sum) % 40 ∧
    makeRollPos st pid roll_sum < 40 ∧
    (∀ pos, pos < 40 → goBack3 pos < 40) ∧
    PosOK (make_roll st pid fuel) ∧
    PosOK (run fuel (Job.card c pid) st) ∧
    (getPlayer (put_in_prison st pid) pid).pos = st.prison_id ∧
    PosOK (put_in_prison st pid) := by
  have hmod : ∀ a : ℕ, a % 40 < 40 := fun a => Nat.mod_lt _ (by omega)
  refine ⟨?_, ?_, fun pos h => goBack3_lt pos h, ?_, ?_, ?_, ?_⟩
  · unfold makeRollPos
    rw [hb.1]
  · unfold makeRollPos
    rw [hb.1]
    exact hmod _
  · unfold make_roll
    dsimp only []
    refine (run_invariant fuel _ _).2.2 ?_ ?_
    · refine boardOK_congr ?_ ?_ hb
      · show (setPos _ pid _).fields = st.fields
        split <;> rfl
      · show (setPos _ pid _).prison_id = st.prison_id
        split <;> rfl
    · have hfn : (popRoll st).2.fields.length = 40 := hb.1
      rw [hfn]
      apply posOK_setPos pid _ (hmod _)
      split
      · exact posOK_updMoney _ _ (posOK_congr rfl hp)
      · exact posOK_congr rfl hp
  · exact (run_invariant fuel _ _).2.2 hb hp
  · unfold put_in_prison
    rw [getPlayer_updPlayer]
    rw [if_pos ⟨rfl, hpid⟩]
  · exact posOK_put_in_prison pid hb.2.2 hp

/-- Witness for C10 on the 40-field fixture `board40`. -/
theorem claim_C10_witness :
    BoardOK board40 ∧ PosOK board40 ∧
    makeRollPos board40 0 7 = ((getPlayer board40 0).pos + 7) % 40 ∧
    makeRollPos board40 0 7 < 40 ∧
    PosOK (make_roll board40 0 3) ∧
    PosOK (run 3 (Job.card Card.goBack3Spaces 0) board40) ∧
    (getPlayer (put_in_prison board40 0) 0).pos = board40.prison_id ∧
    PosOK (put_in_prison board40 0) := by
  have hb : BoardOK board40 := by
    refine ⟨by decide, ?_, by decide⟩
    decide
  have hp : PosOK board40 := by unfold PosOK; decide
  obtain ⟨a1, a2, _, a4, a5, a6, a7⟩ :=
    claim_C10_positions board40 0 7 3 Card.goBack3Spaces hb hp (by decide)
  exact ⟨hb, hp, a1, a2, a4, a5, a6, a7⟩

/-! ### Claim C1: atomic execution of accepted offers -/

theorem getPlayer_updMoney_ne {st : GameState} {pid j : ℕ} (h : pid ≠ j) (d : ℚ) :
    getPlayer (updMoney st pid d) j = getPlayer st j := by
  rw [updMoney, getPlayer_updPlayer, if_neg (by rintro ⟨rfl, -⟩; exact h rfl)]

theorem money_updMoney_self {st : GameState} {pid : ℕ} (h : pid < st.players.length)
    (d : ℚ) :
    (getPlayer (updMoney st pid d) pid).money = (getPlayer st pid).money + d := by
  rw [updMoney, getPlayer_updPlayer, if_pos ⟨rfl, h⟩]

theorem pending_updMoney {st : GameState} (pid j : ℕ) (d : ℚ) :
    (getPlayer (updMoney st pid d) j).pending_offer =
      (getPlayer st j).pending_offer := by
  rw [updMoney, getPlayer_updPlayer]
  split
  · next h => rw [← h.1]
  · rfl

theorem players_length_updMoney (st : GameState) (pid : ℕ) (d : ℚ) :
    (updMoney st pid d).players.length = st.players.length :=
  players_length_updPlayer st pid _

theorem players_length_add_property (st : GameState) (pid fid : ℕ) :
    (add_property st pid fid).players.length = st.players.length := by
  unfold add_property
  rw [players_length_updField, players_length_updPlayer]

theorem players_length_remove_property (st : GameState) (pid fid : ℕ) :
    (remove_property st pid fid).players.length = st.players.length := by
  unfold remove_property
  rw [players_length_updField, players_length_updPlayer]

theorem fields_length_add_property (st : GameState) (pid fid : ℕ) :
    (add_property st pid fid).fields.length = st.fields.length := by
  unfold add_property
  rw [fields_length_updField, fields_length_updPlayer]

theorem fields_length_remove_property (st : GameState) (pid fid : ℕ) :
    (remove_property st pid fid).fields.length = st.fields.length := by
  unfold remove_property
  rw [fields_length_updField, fields_length_updPlayer]

theorem props_add_property_self {st : GameState} {pid : ℕ} (fid : ℕ)
    (h : pid < st.players.length) :
    (getPlayer (add_property st pid fid) pid).properties =
      (getPlayer st pid).properties ++ [fid] := by
  unfold add_property
  rw [getPlayer_updField, getPlayer_updPlayer, if_pos ⟨rfl, h⟩]

theorem props_add_property_ne {st : GameState} {pid j : ℕ} (fid : ℕ) (h : pid ≠ j) :
    getPlayer (add_property st pid fid) j = getPlayer st j := by
  unfold add_property
  rw [getPlayer_updField, getPlayer_updPlayer,
    if_neg (by rintro ⟨rfl, -⟩; exact h rfl)]

theorem props_remove_property_self {st : GameState} {pid : ℕ} (fid : ℕ)
    (h : pid < st.players.length) :
    (getPlayer (remove_property st pid fid) pid).properties =
      (getPlayer st pid).properties.erase fid := by
  unfold remove_property
  rw [getPlayer_updField, getPlayer_updPlayer, if_pos ⟨rfl, h⟩]

theorem props_remove_property_ne {st : GameState} {pid j : ℕ} (fid : ℕ) (h : pid ≠ j) :
    getPlayer (remove_property st pid fid) j = getPlayer st j := by
  unfold remove_property
  rw [getPlayer_updField, getPlayer_updPlayer,
    if_neg (by rintro ⟨rfl, -⟩; exact h rfl)]

theorem money_add_property {st : GameState} (pid fid j : ℕ) :
    (getPlayer (add_property st pid fid) j).money = (getPlayer st j).money := by
  unfold add_property
  rw [getPlayer_updField, getPlayer_updPlayer]
  split
  · next h => rw [← h.1]
  · rfl

theorem money_remove_property {st : GameState} (pid fid j : ℕ) :
    (getPlayer (remove_property st pid fid) j).money = (getPlayer st j).money := by
  unfold remove_property
  rw [getPlayer_updField, getPlayer_updPlayer]
  split
  · next h => rw [← h.1]
  · rfl

theorem pending_add_property {st : GameState} (pid fid j : ℕ) :
    (getPlayer (add_property st pid fid) j).pending_offer =
      (getPlayer st j).pending_offer := by
  unfold add_property
  rw [getPlayer_updField, getPlayer_updPlayer]
  split
  · next h => rw [← h.1]
  · rfl

theorem pending_remove_property {st : GameState} (pid fid j : ℕ) :
    (getPlayer (remove_property st pid fid) j).pending_offer =
      (getPlayer st j).pending_offer := by
  unfold remove_property
  rw [getPlayer_updField, getPlayer_updPlayer]
  split
  · next h => rw [← h.1]
  · rfl

theorem getField_add_property_self {st : GameState} {pid fid : ℕ}
    (h : fid < st.fields.length) :
    getField (add_property st pid fid) fid =
      fieldSetOwner (getField st fid) (some pid) := by
  unfold add_property
  rw [getField_updField, if_pos ⟨rfl, by rw [fields_length_updPlayer]; exact h⟩]
  rfl

theorem getField_add_property_ne {st : GameState} {pid fid j : ℕ} (h : fid ≠ j) :
    getField (add_property st pid fid) j = getField st j := by
  unfold add_property
  rw [getField_updField, if_neg (by rintro ⟨rfl, -⟩; exact h rfl)]
  rfl

theorem getField_remove_property_ne {st : GameState} {pid fid j : ℕ} (h : fid ≠ j) :
    getField (remove_property st pid fid) j = getField st j := by
  unfold remove_property
  rw [getField_updField, if_neg (by rintro ⟨rfl, -⟩; exact h rfl)]
  rfl

theorem getField_updMoney (st : GameState) (pid : ℕ) (d : ℚ) (j : ℕ) :
    getField (updMoney st pid d) j = getField st j := rfl

theorem clearConflicts_money (t : List ℕ) (p : Player) :
    (clearConflicts t p).money = p.money := by
  unfold clearConflicts
  split
  · split <;> rfl
  · rfl

theorem clearConflicts_properties (t : List ℕ) (p : Player) :
    (clearConflicts t p).properties = p.properties := by
  unfold clearConflicts
  split
  · split <;> rfl
  · rfl

theorem clearConflicts_clears {t : List ℕ} {p : Player} {off : Offer}
    (h : p.pending_offer = some off) (hr : offerRefsTraded off t = true) :
    (clearConflicts t p).pending_offer = none := by
  unfold clearConflicts
  rw [h]
  dsimp only []
  rw [if_pos hr]

theorem props_updMoney (st : GameState) (pid : ℕ) (d : ℚ) (j : ℕ) :
    (getPlayer (updMoney st pid d) j).properties = (getPlayer st j).properties := by
  rw [updMoney, getPlayer_updPlayer]
  split
  · next h => rw [← h.1]
  · rfl

theorem getPlayer_scan (st : GameState) (t : List ℕ) (j : ℕ)
    (hj : j < st.players.length) :
    getPlayer { st with players := st.players.map (clearConflicts t) } j =
      clearConflicts t (getPlayer st j) := by
  unfold getPlayer
  simp only [List.getElem?_map, List.getElem?_eq_getElem hj]
  rfl

/-- Claim C1: one call to `exec_offer` applies every named transfer
    together: the requested property (when set) moves target → offerer
    and the offered property (when set) moves offerer → target, with the
    owner field and both owned-property lists updated on both sides; both
    cash deltas apply; and afterwards every player's pending offer that
    references a traded property is cleared.  The hypotheses are the
    ownership facts (invariant I1) that hold when an accepted offer is
    executed; the single conjunction is the atomicity: the one execution
    yields all of these effects at once. -/
theorem claim_C1_exec_offer (st : GameState) (o : Offer)
    (hfb : o.player_from < st.players.length)
    (htb : o.player_to < st.players.length)
    (hne : o.player_from ≠ o.player_to)
    (hreq : ∀ r, o.property_requested = some r → r < st.fields.length ∧
      r ∈ (getPlayer st o.player_to).properties ∧
      r ∉ (getPlayer st o.player_from).properties)
    (hoff : ∀ s, o.property_offered = some s → s < st.fields.length ∧
      s ∈ (getPlayer st o.player_from).properties ∧
      s ∉ (getPlayer st o.player_to).properties)
    (hnodf : (getPlayer st o.player_from).properties.Nodup)
    (hnodt : (getPlayer st o.player_to).properties.Nodup)
    (hdiff : ∀ r s, o.property_requested = some r → o.property_offered = some s →
      r ≠ s) :
    (∀ r, o.property_requested = some r →
      (getField (exec_offer st o) r).owner = some o.player_from ∧
      r ∈ (getPlayer (exec_offer st o) o.player_from).properties ∧
      r ∉ (getPlayer (exec_offer st o) o.player_to).properties) ∧
    (∀ s, o.property_offered = some s →
      (getField (exec_offer st o) s).owner = some o.player_to ∧
      s ∈ (getPlayer (exec_offer st o) o.player_to).properties ∧
      s ∉ (getPlayer (exec_offer st o) o.player_from).properties) ∧
    ((getPlayer (exec_offer st o) o.player_from).money =
      (getPlayer st o.player_from).money + o.money_requested - o.money_offered) ∧
    ((getPlayer (exec_offer st o) o.player_to).money =
      (getPlayer st o.player_to).money - o.money_requested + o.money_offered) ∧
    (∀ j, j < st.players.length → ∀ po,
      (getPlayer st j).pending_offer = some po →
      offerRefsTraded po (o.property_requested.toList ++ o.property_offered.toList)
        = true →
      (getPlayer (exec_offer st o) j).pending_offer = none) := by
  rcases hreqo : o.property_requested with _ | r <;>
    rcases hoffo : o.property_offered with _ | s
  · -- neither property set
    simp only [exec_offer, hreqo, hoffo, Option.toList_none, List.nil_append]
    set M4 := updMoney (updMoney (updMoney (updMoney st o.player_from
      o.money_requested) o.player_to (-o.money_requested)) o.player_from
      (-o.money_offered)) o.player_to o.money_offered with hM4def
    have lM4 : M4.players.length = st.players.length := by
      rw [hM4def]
      simp only [players_length_updMoney]
    have ppend : ∀ j, (getPlayer M4 j).pending_offer =
        (getPlayer st j).pending_offer := fun j => by
      rw [hM4def]
      simp only [pending_updMoney]
    refine ⟨?_, ?_, ?_, ?_, ?_⟩
    · intro r1 heq; exact Option.noConfusion heq
    · intro s1 heq; exact Option.noConfusion heq
    · rw [getPlayer_scan M4 _ o.player_from (by rw [lM4]; exact hfb)]
      rw [clearConflicts_money]
      rw [hM4def]
      rw [getPlayer_updMoney_ne (Ne.symm hne)]
      rw [money_updMoney_self (by simp only [players_length_updMoney]; exact hfb)]
      rw [getPlayer_updMoney_ne (Ne.symm hne)]
      rw [money_updMoney_self hfb]
      ring
    · rw [getPlayer_scan M4 _ o.player_to (by rw [lM4]; exact htb)]
      rw [clearConflicts_money]
      rw [hM4def]
      rw [money_updMoney_self (by simp only [players_length_updMoney]; exact htb)]
      rw [getPlayer_updMoney_ne hne]
      rw [money_updMoney_self (by simp only [players_length_updMoney]; exact htb)]
      rw [getPlayer_updMoney_ne hne]
      ring
    · intro j hj po hpo hrefs
      rw [getPlayer_scan M4 _ j (by rw [lM4]; exact hj)]
      exact clearConflicts_clears (by rw [ppend]; exact hpo) hrefs
  · -- only an offered property
    obtain ⟨hsf, hsmem, hsnot⟩ := hoff s hoffo
    simp only [exec_offer, hreqo, hoffo, Option.toList_some, Option.toList_none,
      List.nil_append]
    set P := add_property (remove_property st o.player_from s) o.player_to s
      with hPdef
    set M4 := updMoney (updMoney (updMoney (updMoney P o.player_from
      o.money_requested) o.player_to (-o.money_requested)) o.player_from
      (-o.money_offered)) o.player_to o.money_offered with hM4def
    have lP : P.players.length = st.players.length := by
      rw [hPdef]
      simp only [players_length_add_property, players_length_remove_property]
    have lM4 : M4.players.length = st.players.length := by
      rw [hM4def]
      simp only [players_length_updMoney, lP]
    have fF : ∀ j, getField M4 j = getField P j := fun j => by
      rw [hM4def]
      simp only [getField_updMoney]
    have pprops : ∀ j, (getPlayer M4 j).properties = (getPlayer P j).properties :=
      fun j => by
      rw [hM4def]
      simp only [props_updMoney]
    have ppend : ∀ j, (getPlayer M4 j).pending_offer =
        (getPlayer st j).pending_offer := fun j => by
      rw [hM4def, hPdef]
      simp only [pending_updMoney, pending_add_property, pending_remove_property]
    have hPf : (getPlayer P o.player_from).properties =
        (getPlayer st o.player_from).properties.erase s := by
      rw [hPdef]
      rw [props_add_property_ne s (Ne.symm hne)]
      rw [props_remove_property_self s hfb]
    have hPt : (getPlayer P o.player_to).properties =
        (getPlayer st o.player_to).properties ++ [s] := by
      rw [hPdef]
      rw [props_add_property_self s (by
        simp only [players_length_remove_property]
        exact htb)]
      rw [props_remove_property_ne s hne]
    refine ⟨?_, ?_, ?_, ?_, ?_⟩
    · intro r1 heq; exact Option.noConfusion heq
    · intro s1 heq
      have hs1 : s = s1 := by injection heq
      subst hs1
      refine ⟨?_, ?_, ?_⟩
      · show (getField M4 s).owner = some o.player_to
        rw [fF, hPdef]
        rw [getField_add_property_self (by
          rw [fields_length_remove_property]; exact hsf)]
        rfl
      · rw [getPlayer_scan M4 _ o.player_to (by rw [lM4]; exact htb)]
        rw [clearConflicts_properties, pprops, hPt]
        simp
      · rw [getPlayer_scan M4 _ o.player_from (by rw [lM4]; exact hfb)]
        rw [clearConflicts_properties, pprops, hPf]
        exact hnodf.not_mem_erase
    · rw [getPlayer_scan M4 _ o.player_from (by rw [lM4]; exact hfb)]
      rw [clearConflicts_money]
      rw [hM4def]
      rw [getPlayer_updMoney_ne (Ne.symm hne)]
      rw [money_updMoney_self (by simp only [players_length_updMoney, lP]; exact hfb)]
      rw [getPlayer_updMoney_ne (Ne.symm hne)]
      rw [money_updMoney_self (by rw [lP]; exact hfb)]
      have : (getPlayer P o.player_from).money =
          (getPlayer st o.player_from).money := by
        rw [hPdef]
        simp only [money_add_property, money_remove_property]
      rw [this]
      ring
    · rw [getPlayer_scan M4 _ o.player_to (by rw [lM4]; exact htb)]
      rw [clearConflicts_money]
      rw [hM4def]
      rw [money_updMoney_self (by
        simp only [players_length_updMoney, lP]; exact htb)]
      rw [getPlayer_updMoney_ne hne]
      rw [money_updMoney_self (by
        simp only [players_length_updMoney, lP]; exact htb)]
      rw [getPlayer_updMoney_ne hne]
      have : (getPlayer P o.player_to).money =
          (getPlayer st o.player_to).money := by
        rw [hPdef]
        simp only [money_add_property, money_remove_property]
      rw [this]
      ring
    · intro j hj po hpo hrefs
      rw [getPlayer_scan M4 _ j (by rw [lM4]; exact hj)]
      exact clearConflicts_clears (by rw [ppend]; exact hpo) hrefs
  · -- only a requested property
    obtain ⟨hrf, hrmem, hrnot⟩ := hreq r hreqo
    simp only [exec_offer, hreqo, hoffo, Option.toList_some, Option.toList_none,
      List.append_nil]
    set P := add_property (remove_property st o.player_to r) o.player_from r
      with hPdef
    set M4 := updMoney (updMoney (updMoney (updMoney P o.player_from
      o.money_requested) o.player_to (-o.money_requested)) o.player_from
      (-o.money_offered)) o.player_to o.money_offered with hM4def
    have lP : P.players.length = st.players.length := by
      rw [hPdef]
      simp only [players_length_add_property, players_length_remove_property]
    have lM4 : M4.players.length = st.players.length := by
      rw [hM4def]
      simp only [players_length_updMoney, lP]
    have fF : ∀ j, getField M4 j = getField P j := fun j => by
      rw [hM4def]
      simp only [getField_updMoney]
    have pprops : ∀ j, (getPlayer M4 j).properties = (getPlayer P j).properties :=
      fun j => by
      rw [hM4def]
      simp only [props_updMoney]
    have ppend : ∀ j, (getPlayer M4 j).pending_offer =
        (getPlayer st j).pending_offer := fun j => by
      rw [hM4def, hPdef]
      simp only [pending_updMoney, pending_add_property, pending_remove_property]
    have hPf : (getPlayer P o.player_from).properties =
        (getPlayer st o.player_from).properties ++ [r] := by
      rw [hPdef]
      rw [props_add_property_self r (by
        simp only [players_length_remove_property]
        exact hfb)]
      rw [props_remove_property_ne r (Ne.symm hne)]
    have hPt : (getPlayer P o.player_to).properties =
        (getPlayer st o.player_to).properties.erase r := by
      rw [hPdef]
      rw [props_add_property_ne r hne]
      rw [props_remove_property_self r htb]
    refine ⟨?_, ?_, ?_, ?_, ?_⟩
    · intro r1 heq
      have hr1 : r = r1 := by injection heq
      subst hr1
      refine ⟨?_, ?_, ?_⟩
      · show (getField M4 r).owner = some o.player_from
        rw [fF, hPdef]
        rw [getField_add_property_self (by
          rw [fields_length_remove_property]; exact hrf)]
        rfl
      · rw [getPlayer_scan M4 _ o.player_from (by rw [lM4]; exact hfb)]
        rw [clearConflicts_properties, pprops, hPf]
        simp
      · rw [getPlayer_scan M4 _ o.player_to (by rw [lM4]; exact htb)]
        rw [clearConflicts_properties, pprops, hPt]
        exact hnodt.not_mem_erase
    · intro s1 heq; exact Option.noConfusion heq
    · rw [getPlayer_scan M4 _ o.player_from (by rw [lM4]; exact hfb)]
      rw [clearConflicts_money]
      rw [hM4def]
      rw [getPlayer_updMoney_ne (Ne.symm hne)]
      rw [money_updMoney_self (by simp only [players_length_updMoney, lP]; exact hfb)]
      rw [getPlayer_updMoney_ne (Ne.symm hne)]
      rw [money_updMoney_self (by rw [lP]; exact hfb)]
      have : (getPlayer P o.player_from).money =
          (getPlayer st o.player_from).money := by
        rw [hPdef]
        simp only [money_add_property, money_remove_property]
      rw [this]
      ring
    · rw [getPlayer_scan M4 _ o.player_to (by rw [lM4]; exact htb)]
      rw [clearConflicts_money]
      rw [hM4def]
      rw [money_updMoney_self (by
        simp only [players_length_updMoney, lP]; exact htb)]
      rw [getPlayer_updMoney_ne hne]
      rw [money_updMoney_self (by
        simp only [players_length_updMoney, lP]; exact htb)]
      rw [getPlayer_updMoney_ne hne]
      have : (getPlayer P o.player_to).money =
          (getPlayer st o.player_to).money := by
        rw [hPdef]
        simp only [money_add_property, money_remove_property]
      rw [this]
      ring
    · intro j hj po hpo hrefs
      rw [getPlayer_scan M4 _ j (by rw [lM4]; exact hj)]
      exact clearConflicts_clears (by rw [ppend]; exact hpo) hrefs
  · -- both a requested and an offered property
    obtain ⟨hrf, hrmem, hrnot⟩ := hreq r hreqo
    obtain ⟨hsf, hsmem, hsnot⟩ := hoff s hoffo
    have hrs : r ≠ s := hdiff r s hreqo hoffo
    simp only [exec_offer, hreqo, hoffo, Option.toList_some, Option.toList_none]
    set P := add_property (remove_property (add_property (remove_property st
      o.player_to r) o.player_from r) o.player_from s) o.player_to s with hPdef
    set M4 := updMoney (updMoney (updMoney (updMoney P o.player_from
      o.money_requested) o.player_to (-o.money_requested)) o.player_from
      (-o.money_offered)) o.player_to o.money_offered with hM4def
    have lP : P.players.length = st.players.length := by
      rw [hPdef]
      simp only [players_length_add_property, players_length_remove_property]
    have lM4 : M4.players.length = st.players.length := by
      rw [hM4def]
      simp only [players_length_updMoney, lP]
    have fF : ∀ j, getField M4 j = getField P j := fun j => by
      rw [hM4def]
      simp only [getField_updMoney]
    have pprops : ∀ j, (getPlayer M4 j).properties = (getPlayer P j).properties :=
      fun j => by
      rw [hM4def]
      simp only [props_updMoney]
    have ppend : ∀ j, (getPlayer M4 j).pending_offer =
        (getPlayer st j).pending_offer := fun j => by
      rw [hM4def, hPdef]
      simp only [pending_updMoney, pending_add_property, pending_remove_property]
    have hPf : (getPlayer P o.player_from).properties =
        ((getPlayer st o.player_from).properties ++ [r]).erase s := by
      rw [hPdef]
      rw [props_add_property_ne s (Ne.symm hne)]
      rw [props_remove_property_self s (by
        simp only [players_length_add_property, players_length_remove_property]
        exact hfb)]
      rw [props_add_property_self r (by
        simp only [players_length_remove_property]
        exact hfb)]
      rw [props_remove_property_ne r (Ne.symm hne)]
    have hPt : (getPlayer P o.player_to).properties =
        ((getPlayer st o.player_to).properties.erase r) ++ [s] := by
      rw [hPdef]
      rw [props_add_property_self s (by
        simp only [players_length_add_property, players_length_remove_property]
        exact htb)]
      rw [props_remove_property_ne s hne]
      rw [props_add_property_ne r hne]
      rw [props_remove_property_self r htb]
    have hnodfr : ((getPlayer st o.player_from).properties ++ [r]).Nodup := by
      refine List.Nodup.append hnodf (List.nodup_singleton r) ?_
      intro x hx hxr
      rw [List.mem_singleton] at hxr
      subst hxr
      exact hrnot hx
    refine ⟨?_, ?_, ?_, ?_, ?_⟩
    · intro r1 heq
      have hr1 : r = r1 := by injection heq
      subst hr1
      refine ⟨?_, ?_, ?_⟩
      · show (getField M4 r).owner = some o.player_from
        rw [fF, hPdef]
        rw [getField_add_property_ne (Ne.symm hrs)]
        rw [getField_remove_property_ne (Ne.symm hrs)]
        rw [getField_add_property_self (by
          rw [fields_length_remove_property]; exact hrf)]
        rfl
      · 
        rw [getPlayer_scan M4 ([r] ++ [s]) o.player_from (by rw [lM4]; exact hfb)]
        rw [clearConflicts_properties, pprops, hPf]
        rw [List.mem_erase_of_ne hrs]
        simp
      · 
        rw [getPlayer_scan M4 ([r] ++ [s]) o.player_to (by rw [lM4]; exact htb)]
        rw [clearConflicts_properties, pprops, hPt]
        intro hmem
        rcases List.mem_append.mp hmem with h | h
        · exact hnodt.not_mem_erase h
        · rw [List.mem_singleton] at h
          exact hrs h
    · intro s1 heq
      have hs1 : s = s1 := by injection heq
      subst hs1
      refine ⟨?_, ?_, ?_⟩
      · show (getField M4 s).owner = some o.player_to
        rw [fF, hPdef]
        rw [getField_add_property_self (by
          simp only [fields_length_remove_property, fields_length_add_property]
          exact hsf)]
        rfl
      · 
        rw [getPlayer_scan M4 ([r] ++ [s]) o.player_to (by rw [lM4]; exact htb)]
        rw [clearConflicts_properties, pprops, hPt]
        simp
      · 
        rw [getPlayer_scan M4 ([r] ++ [s]) o.player_from (by rw [lM4]; exact hfb)]
        rw [clearConflicts_properties, pprops, hPf]
        exact hnodfr.not_mem_erase
    · 
      rw [getPlayer_scan M4 ([r] ++ [s]) o.player_from (by rw [lM4]; exact hfb)]
      rw [clearConflicts_money]
      rw [hM4def]
      rw [getPlayer_updMoney_ne (Ne.symm hne)]
      rw [money_updMoney_self (by simp only [players_length_updMoney, lP]; exact hfb)]
      rw [getPlayer_updMoney_ne (Ne.symm hne)]
      rw [money_updMoney_self (by rw [lP]; exact hfb)]
      have : (getPlayer P o.player_from).money = (getPlayer st o.player_from).money := by
        rw [hPdef]
        simp only [money_add_property, money_remove_property]
      rw [this]
      ring
    · 
      rw [getPlayer_scan M4 ([r] ++ [s]) o.player_to (by rw [lM4]; exact htb)]
      rw [clearConflicts_money]
      rw [hM4def]
      rw [money_updMoney_self (by
        simp only [players_length_updMoney, lP]; exact htb)]
      rw [getPlayer_updMoney_ne hne]
      rw [money_updMoney_self (by
        simp only [players_length_updMoney, lP]; exact htb)]
      rw [getPlayer_updMoney_ne hne]
      have : (getPlayer P o.player_to).money = (getPlayer st o.player_to).money := by
        rw [hPdef]
        simp only [money_add_property, money_remove_property]
      rw [this]
      ring
    · intro j hj po hpo hrefs
      rw [getPlayer_scan M4 ([r] ++ [s]) j (by rw [lM4]; exact hj)]
      exact clearConflicts_clears (by rw [ppend]; exact hpo) hrefs

/-- Witness for C1: executing `exchangeOffer` in `stTrade` moves train 3
    to player 0, brown property 2 to player 1, applies the cash deltas,
    and clears player 2's conflicting pending offer. -/
theorem claim_C1_witness :
    (getField (exec_offer stTrade exchangeOffer) 3).owner = some 0 ∧
    3 ∈ (getPlayer (exec_offer stTrade exchangeOffer) 0).properties ∧
    (getField (exec_offer stTrade exchangeOffer) 2).owner = some 1 ∧
    (getPlayer (exec_offer stTrade exchangeOffer) 0).money =
      (getPlayer stTrade 0).money + 10 - 25 ∧
    (getPlayer (exec_offer stTrade exchangeOffer) 2).pending_offer = none := by
  obtain ⟨hA, hB, hC, hD, hE⟩ := claim_C1_exec_offer stTrade exchangeOffer
    (by decide) (by decide) (by decide)
    (fun r hr => by
      injection hr with h
      subst h
      exact ⟨by decide, by decide, by decide⟩)
    (fun s hs => by
      injection hs with h
      subst h
      exact ⟨by decide, by decide, by decide⟩)
    (by decide) (by decide)
    (fun r s hr hs => by
      injection hr with h1
      injection hs with h2
      subst h1
      subst h2
      decide)
  obtain ⟨a1, a2, a3⟩ := hA 3 rfl
  obtain ⟨b1, b2, b3⟩ := hB 2 rfl
  refine ⟨a1, a2, b1, hC, ?_⟩
  exact hE 2 (by decide) _ rfl (by decide)

/-! ### C5: `identify_mortgages` refines its specification -/

theorem sortedInsert_perm (x : ℕ × ℕ) (l : List (ℕ × ℕ)) :
    List.Perm (sortedInsert x l) (x :: l) := by
  induction l with
  | nil => exact List.Perm.refl _
  | cons y ys ih =>
    unfold sortedInsert
    split
    · exact (ih.cons y).trans (List.Perm.swap x y ys)
    · exact List.Perm.refl _

theorem pySorted_perm_aux (l : List (ℕ × ℕ)) :
    ∀ acc, List.Perm (l.foldl (fun acc x => sortedInsert x acc) acc) (acc ++ l) := by
  induction l with
  | nil => intro acc; simp
  | cons x xs ih =>
    intro acc
    have h1 : (x :: xs).foldl (fun acc x => sortedInsert x acc) acc
        = xs.foldl (fun acc x => sortedInsert x acc) (sortedInsert x acc) := rfl
    rw [h1]
    refine ((ih (sortedInsert x acc)).trans ?_)
    refine (((sortedInsert_perm x acc).append_right xs).trans ?_)
    exact List.perm_middle.symm.trans (by simp)

theorem pySorted_perm (l : List (ℕ × ℕ)) : List.Perm (pySorted l) l := by
  simpa using pySorted_perm_aux l []

theorem sortedInsert_sorted (x : ℕ × ℕ) {l : List (ℕ × ℕ)}
    (h : l.Sorted (fun a b => a.2 ≤ b.2)) :
    (sortedInsert x l).Sorted (fun a b => a.2 ≤ b.2) := by
  induction l with
  | nil => simp [sortedInsert]
  | cons y ys ih =>
    rw [List.sorted_cons] at h
    obtain ⟨hy, hys⟩ := h
    unfold sortedInsert
    split
    · next hyx =>
      rw [List.sorted_cons]
      refine ⟨?_, ih hys⟩
      intro b hb
      have := List.mem_cons.mp ((sortedInsert_perm x ys).mem_iff.mp hb)
      rcases this with rfl | hb'
      · exact hyx
      · exact hy b hb'
    · next hyx =>
      rw [List.sorted_cons]
      refine ⟨?_, List.sorted_cons.mpr ⟨hy, hys⟩⟩
      intro b hb
      rcases List.mem_cons.mp hb with rfl | hb'
      · omega
      · have h1 : x.2 ≤ y.2 := by omega
        exact h1.trans (hy b hb')

theorem pySorted_sorted (l : List (ℕ × ℕ)) :
    (pySorted l).Sorted (fun a b => a.2 ≤ b.2) := by
  have : ∀ acc, acc.Sorted (fun a b : ℕ × ℕ => a.2 ≤ b.2) →
      (l.foldl (fun acc x => sortedInsert x acc) acc).Sorted
        (fun a b => a.2 ≤ b.2) := by
    induction l with
    | nil => intro acc h; exact h
    | cons x xs ih =>
      intro acc h
      exact ih (sortedInsert x acc) (sortedInsert_sorted x h)
  exact this [] (List.sorted_nil)

theorem cumsum_length (l : List ℕ) : (cumsum l).length = l.length := by
  induction l with
  | nil => rfl
  | cons a as ih => simp [cumsum, ih]

theorem cumsum_getD (l : List ℕ) :
    ∀ j, j < l.length → (cumsum l).getD j 0 = (l.take (j + 1)).sum := by
  induction l with
  | nil => intro j hj; simp at hj
  | cons a as ih =>
    intro j hj
    cases j with
    | zero => simp [cumsum]
    | succ j' =>
      have hj' : j' < as.length := by simpa using hj
      have hj'c : j' < (cumsum as).length := by rw [cumsum_length]; exact hj'
      calc (cumsum (a :: as)).getD (j' + 1) 0
          = ((cumsum as).map (a + ·)).getD j' 0 := rfl
        _ = a + (cumsum as).getD j' 0 := by
            simp only [List.getD_eq_getElem?_getD, List.getElem?_map,
              List.getElem?_eq_getElem hj'c, Option.map_some', Option.getD_some]
        _ = a + (as.take (j' + 1)).sum := by rw [ih j' hj']
        _ = ((a :: as).take (j' + 1 + 1)).sum := by simp
  
theorem firstTrue_lt {l : List Bool} (h : l.any id = true) :
    firstTrue l < l.length := by
  induction l with
  | nil => simp at h
  | cons b bs ih =>
    unfold firstTrue
    split
    · simp
    · next hb =>
      have hb' : b = false := by revert hb; cases b <;> simp
      rw [hb'] at h
      simp only [List.any_cons, id, Bool.false_or] at h
      have := ih h
      simpa using Nat.succ_lt_succ this

theorem firstTrue_getD {l : List Bool} (h : l.any id = true) :
    l.getD (firstTrue l) false = true := by
  induction l with
  | nil => simp at h
  | cons b bs ih =>
    unfold firstTrue
    split
    · next hb => simpa using hb
    · next hb =>
      have hb' : b = false := by revert hb; cases b <;> simp
      rw [hb'] at h
      simp only [List.any_cons, id, Bool.false_or] at h
      simpa using ih h

theorem firstTrue_before (l : List Bool) :
    ∀ j, j < firstTrue l → l.getD j false = false := by
  induction l with
  | nil => intro j hj; simp [firstTrue] at hj
  | cons b bs ih =>
    intro j hj
    unfold firstTrue at hj
    split at hj
    · omega
    · next hb =>
      have hb' : b = false := by revert hb; cases b <;> simp
      cases j with
      | zero => simpa using hb'
      | succ j' =>
        have : j' < firstTrue bs := by omega
        simpa using ih j' this

theorem any_false_getD {l : List Bool} (h : l.any id = false) :
    ∀ j, j < l.length → l.getD j false = false := by
  induction l with
  | nil => intro j hj; simp at hj
  | cons b bs ih =>
    intro j hj
    simp only [List.any_cons, id, Bool.or_eq_false_iff] at h
    cases j with
    | zero => simpa using h.1
    | succ j' =>
      have hj' : j' < bs.length := by simpa using hj
      simpa using ih h.2 j' hj'

theorem mem_mortgageCandidates (st : GameState) (pid x c : ℕ) :
    (x, c) ∈ mortgageCandidates st pid ↔
    ∃ property_id ∈ (getPlayer st pid).properties,
      (getField st property_id).is_mortgage = false ∧
      ¬ ((getField st property_id).hasColor = true ∧
          0 < (getField st property_id).build_level) ∧
      x = (getField st property_id).id ∧
      c = (getField st property_id).price / 2 := by
  unfold mortgageCandidates
  rw [List.mem_filterMap]
  constructor
  · rintro ⟨a, ha, hf⟩
    by_cases h1 : (getField st a).is_mortgage = true
    · rw [if_pos h1] at hf
      simp at hf
    · rw [if_neg h1] at hf
      by_cases h2 : (getField st a).hasColor = true ∧ 0 < (getField st a).build_level
      · rw [if_pos h2] at hf
        simp at hf
      · rw [if_neg h2] at hf
        have h3 := Option.some_injective _ hf
        have hx : (getField st a).id = x := congrArg Prod.fst h3
        have hc : (getField st a).price / 2 = c := congrArg Prod.snd h3
        exact ⟨a, ha, by simpa using h1, h2, hx.symm, hc.symm⟩
  · rintro ⟨a, ha, hm, hcb, rfl, rfl⟩
    refine ⟨a, ha, ?_⟩
    rw [if_neg (by simp [hm]), if_neg hcb]


theorem firstTrue_le_length (l : List Bool) : firstTrue l ≤ l.length := by
  induction l with
  | nil => simp [firstTrue]
  | cons b bs ih =>
    unfold firstTrue
    split
    · simp
    · simpa [List.length_cons] using Nat.succ_le_succ ih

theorem getD_map_decide (need : ℚ) (l : List ℕ) (j : ℕ) (hj : j < l.length) :
    (l.map (fun s : ℕ => decide (need ≤ (s : ℚ)))).getD j false =
      decide (need ≤ ((l.getD j 0 : ℕ) : ℚ)) := by
  simp only [List.getD_eq_getElem?_getD, List.getElem?_map,
    List.getElem?_eq_getElem hj, Option.map_some', Option.getD_some]

theorem take_min_length {α : Type _} (l : List α) (k : ℕ) :
    l.take (min k l.length) = l.take k := by
  rcases Nat.le_total k l.length with h | h
  · rw [Nat.min_eq_left h]
  · rw [Nat.min_eq_right h, List.take_length, List.take_of_length_le h]

theorem need_le_prefix_sum (need : ℚ) (C : List ℕ)
    (h : ((cumsum C).map (fun s : ℕ => decide (need ≤ (s : ℚ)))).any id = true) :
    need ≤ (((C.take
      (firstTrue ((cumsum C).map (fun s : ℕ => decide (need ≤ (s : ℚ)))) + 1)).sum : ℕ) : ℚ) := by
  set A := (cumsum C).map (fun s : ℕ => decide (need ≤ (s : ℚ))) with hA
  have hlt := firstTrue_lt h
  have hjc : firstTrue A < (cumsum C).length := by
    rw [hA, List.length_map] at hlt; exact hlt
  have hget := firstTrue_getD h
  rw [hA, getD_map_decide need (cumsum C) _ hjc] at hget
  have hle := of_decide_eq_true hget
  rw [cumsum_getD C _ (by rwa [cumsum_length] at hjc)] at hle
  exact hle

theorem prefix_sum_lt (need : ℚ) (hpos : 0 < need) (C : List ℕ) (j : ℕ)
    (hj : j ≤ firstTrue ((cumsum C).map (fun s : ℕ => decide (need ≤ (s : ℚ))))) :
    (((C.take j).sum : ℕ) : ℚ) < need := by
  set A := (cumsum C).map (fun s : ℕ => decide (need ≤ (s : ℚ))) with hA
  cases j with
  | zero => simpa using hpos
  | succ j' =>
    have hj' : j' < firstTrue A := Nat.lt_of_succ_le hj
    have hb := firstTrue_before A j' hj'
    have hj'A : j' < A.length := lt_of_lt_of_le hj' (firstTrue_le_length A)
    have hj'c : j' < (cumsum C).length := by
      rw [hA, List.length_map] at hj'A; exact hj'A
    rw [hA, getD_map_decide need (cumsum C) j' hj'c] at hb
    have hnle := of_decide_eq_false hb
    rw [cumsum_getD C j' (by rwa [cumsum_length] at hj'c)] at hnle
    exact not_le.mp hnle

theorem sum_lt_of_all_false (need : ℚ) (hpos : 0 < need) (C : List ℕ)
    (h : ((cumsum C).map (fun s : ℕ => decide (need ≤ (s : ℚ)))).any id = false) :
    ((C.sum : ℕ) : ℚ) < need := by
  cases C with
  | nil => simpa using hpos
  | cons a as =>
    have hl : as.length < (a :: as).length := by simp
    have hb := any_false_getD h as.length
      (by rw [List.length_map, cumsum_length]; exact hl)
    rw [getD_map_decide need (cumsum (a :: as)) as.length
      (by rw [cumsum_length]; exact hl)] at hb
    have hnle := of_decide_eq_false hb
    rw [cumsum_getD (a :: as) as.length hl] at hnle
    have htake : (a :: as).take (as.length + 1) = a :: as := by
      rw [show as.length + 1 = (a :: as).length from rfl, List.take_length]
    rw [htake] at hnle
    exact not_le.mp hnle

theorem cast_sum_snd (m : List (ℕ × ℕ)) :
    (m.map (fun x => ((x.2 : ℕ) : ℚ))).sum = (((m.map (·.2)).sum : ℕ) : ℚ) := by
  induction m with
  | nil => simp
  | cons a as ih => simp [ih]

/-- Claim C5 (amended): for every state, player and strictly positive
    need, `identify_mortgages` refines `MortgageSpec`: it considers
    exactly the player's owned, unmortgaged, unbuilt properties, values
    each at `price / 2`, sorts the candidates ascending by raised cash,
    and returns the minimal-length prefix whose cumulative raised cash
    is the first to meet or exceed the need (all candidates when even
    the total is insufficient), together with that prefix's total
    raised cash.  The positivity restriction is necessary: at
    `need = 0` the minimal covering prefix is empty but the code keeps
    one candidate. -/
theorem claim_C5_amended (st : GameState) (pid : ℕ) (need : ℚ) (hpos : 0 < need) :
    MortgageSpec st pid need := by
  unfold MortgageSpec
  refine ⟨?_, ?_, ?_, ?_, ?_⟩
  · intro x c
    rw [(pySorted_perm _).mem_iff]
    exact mem_mortgageCandidates st pid x c
  · exact List.pairwise_map.mpr (pySorted_sorted (mortgageCandidates st pid))
  · simp only [identify_mortgages]
    simp only [List.length_map, List.length_take]
    rw [take_min_length]
  · simp only [identify_mortgages]
    simp only [List.length_map, List.length_take]
    rw [take_min_length, List.map_take]
  · simp only [identify_mortgages]
    simp only [List.length_map, List.length_take]
    split
    · next hany =>
      left
      constructor
      · rw [take_min_length, List.map_take]
        exact need_le_prefix_sum need _ hany
      · intro j hj
        have hjk : j ≤ firstTrue _ :=
          Nat.lt_succ_iff.mp (lt_of_lt_of_le hj (Nat.min_le_left _ _))
        rw [cast_sum_snd, List.map_take]
        exact prefix_sum_lt need hpos _ j hjk
    · next hany =>
      have hfalse : (List.map (fun s : ℕ => decide (need ≤ (s : ℚ)))
          (cumsum (List.map (fun x => x.2)
            (pySorted (mortgageCandidates st pid))))).any id = false := by
        simpa using hany
      right
      refine ⟨Nat.min_self _, ?_⟩
      exact sum_lt_of_all_false need hpos _ hfalse

/-- Claim C5, counterexample to the unrestricted claim: at `need = 0`
    the minimal-length prefix whose cumulative cash meets the need is
    the empty prefix, but `np.argmax` of the all-`True` comparison
    vector is 0 and the code keeps one candidate, so the minimality
    clause of `MortgageSpec` fails on the fixture `stFix`. -/
theorem claim_C5_counterexample : ¬ MortgageSpec stFix 0 0 :=
  fun h => absurd h.2.2.2.2 (by decide)

/-- Claim C5, witness: the amended theorem applied at the concrete
    fixture `stFix` with `need = 90`. -/
theorem claim_C5_witness : (0 : ℚ) < 90 ∧ MortgageSpec stFix 0 90 :=
  ⟨by norm_num, claim_C5_amended stFix 0 90 (by norm_num)⟩

end MonopolyGym

